import Mathlib

/-!
# cep-weather: the request pipeline of `cmd/main.go`

A shallow embedding of `weatherHandler`, `respondWithError`, `getCEPInfo` and
`getWeather`, with the two regular expressions and the `float64` arithmetic
the handler relies on, and the mocks of `cmd/main_test.go`.

Modelling conventions.

* A Go `string` is a Lean `String`, read as its list of code points
  (`String.data`); both regular expressions of the handler work on code
  points.
* A Go `error` is identified with its message (`GoError`); a call returning
  `(T, error)` is an `Except GoError T`.
* `getCEPInfo` and `getWeather` are package-level function variables in the
  source, replaced by mocks in the tests; the handler takes them as a record
  of two functions and returns, next to the response writer, the calls it
  made to them, in order.
* A `float64` is an IEEE 754 binary64 value; every operation is rounded to
  nearest, ties to even. The one place where the Go specification leaves the
  result to the build, the multiply-add `tempC*1.8 + 32`, is a parameter of
  the handler (`fused`), and the statements hold for both of its values.
* `json.NewEncoder(w).Encode(v)` writes the JSON text of `v`, which is
  determined by `v`; the body of a response is kept as the record encoded.
* `log.Printf` writes to the process log and never to the client; it is not
  modelled.
-/

set_option maxRecDepth 100000
set_option exponentiation.threshold 4000

namespace CepWeather

/-! ## Strings and the two regular expressions -/

/-- The Go `error` value, identified with the text it carries. -/
abbrev GoError := String

/-- The meta character `.` of Go's `regexp` without the `s` flag: any code
point except line feed. -/
def dot (c : Char) : Bool := c != '\n'

/-- The class `\d` of Go's `regexp`: the ASCII digits only. -/
def digit (c : Char) : Bool := decide ('0' ≤ c) && decide (c ≤ '9')

/-- Strip the literal `lit` from the front of `s`, if it is there. -/
def stripLiteral : List Char → List Char → Option (List Char)
  | [], s => some s
  | _ :: _, [] => none
  | l :: ls, c :: cs => if l = c then stripLiteral ls cs else none

/-- The literal part of the pattern `/weather/(.+)`. -/
def routeLiteral : List Char := "/weather/".data

/-- A match of `/weather/(.+)` that begins at the first code point of `s`:
the literal, then the longest non-empty run of `.`; the result is the text of
the capture group. -/
def matchHere (s : List Char) : Option (List Char) :=
  match stripLiteral routeLiteral s with
  | none => none
  | some rest =>
    match rest.takeWhile dot with
    | [] => none
    | c :: cs => some (c :: cs)

/-- The call `regexp.MustCompile("/weather/(.+)").FindStringSubmatch(path)` on
the code points of `path`: leftmost match, greedy repetition; the result is
empty when nothing matches and otherwise holds the whole match followed by
the capture group. -/
def findStringSubmatch : List Char → List (List Char)
  | [] => []
  | c :: cs =>
    match matchHere (c :: cs) with
    | some cap => [routeLiteral ++ cap, cap]
    | none => findStringSubmatch cs

/-- The call `regexp.MustCompile("^\\d{8}$").MatchString(cep)`: without the `m`
flag `^` and `$` only match at the two ends of the text, so the text is
exactly eight ASCII digits. -/
def matchValidCep (cep : List Char) : Bool :=
  cep.length == 8 && cep.all digit

/-! ## `float64`

IEEE 754 binary64 with round-to-nearest, ties-to-even, which is what Go's
`float64` operators compute. -/

/-- A `float64` value. `fin neg m e` stands for `(-1)^neg * m * 2^e`; the
values of the type are those of `F64.wf`, and the operations produce no
others (`round_wf`). -/
inductive F64
  | nan
  | inf (neg : Bool)
  | fin (neg : Bool) (m : Nat) (e : Int)
deriving DecidableEq, Repr

/-- Binary digits of `n`, with `fuel` bounding the recursion. -/
def bits : Nat → Nat → Nat
  | 0, _ => 0
  | fuel + 1, n => if n = 0 then 0 else bits fuel (n / 2) + 1

/-- The number of binary digits of `n`: the least `k` with `n < 2^k`. -/
def bitLength (n : Nat) : Nat := bits n n

/-- Numerator and denominator of `(n / d) / 2^e`. -/
def scaled (n d : Nat) (e : Int) : Nat × Nat :=
  if 0 ≤ e then (n, d * 2 ^ e.toNat) else (n * 2 ^ (-e).toNat, d)

/-- The integer nearest to `n / d`, a tie going to the even neighbour. -/
def halfEven (n d : Nat) : Nat :=
  let q := n / d
  let r := n % d
  if 2 * r < d then q
  else if d < 2 * r then q + 1
  else if q % 2 = 0 then q else q + 1

/-- The exponent of the binary64 grid around `n / d` (`0 < n`, `0 < d`): the
`e ≥ -1074` for which `n / d / 2^e` lies below `2^53` and, unless `e` is
`-1074`, not below `2^52`. -/
def exponentOf (n d : Nat) : Int :=
  let e1 : Int := max ((bitLength n : Int) - (bitLength d : Int) - 53) (-1074)
  let p := scaled n d e1
  if 2 ^ 53 * p.2 ≤ p.1 then e1 + 1 else e1

/-- Round the rational `(-1)^neg * n / d` (`0 < d`) to binary64. -/
def F64.round (neg : Bool) (n d : Nat) : F64 :=
  if n = 0 then .fin neg 0 (-1074)
  else
    let e := exponentOf n d
    let p := scaled n d e
    let m := halfEven p.1 p.2
    let r : Nat × Int := if m = 2 ^ 53 then (2 ^ 52, e + 1) else (m, e)
    if 971 < r.2 then .inf neg else .fin neg r.1 r.2

/-- Round `(-1)^neg * m * 2^e` to binary64. -/
def F64.roundDyadic (neg : Bool) (m : Nat) (e : Int) : F64 :=
  if 0 ≤ e then F64.round neg (m * 2 ^ e.toNat) 1 else F64.round neg m (2 ^ (-e).toNat)

/-- The integer `(-1)^neg * m`. -/
def signed (neg : Bool) (m : Nat) : Int := if neg then -(m : Int) else (m : Int)

/-- Go's `x + y` on `float64`. -/
def F64.add : F64 → F64 → F64
  | .nan, _ => .nan
  | _, .nan => .nan
  | .inf a, .inf b => if a = b then .inf a else .nan
  | .inf a, .fin _ _ _ => .inf a
  | .fin _ _ _, .inf b => .inf b
  | .fin s1 m1 e1, .fin s2 m2 e2 =>
    let e := min e1 e2
    let z := signed s1 (m1 * 2 ^ (e1 - e).toNat) + signed s2 (m2 * 2 ^ (e2 - e).toNat)
    if z = 0 then .fin (s1 && s2) 0 (-1074)
    else F64.roundDyadic (decide (z < 0)) z.natAbs e

/-- Go's `x * y` on `float64`. -/
def F64.mul : F64 → F64 → F64
  | .nan, _ => .nan
  | _, .nan => .nan
  | .inf a, .inf b => .inf (xor a b)
  | .inf a, .fin s m _ => if m = 0 then .nan else .inf (xor a s)
  | .fin s m _, .inf b => if m = 0 then .nan else .inf (xor s b)
  | .fin s1 m1 e1, .fin s2 m2 e2 => F64.roundDyadic (xor s1 s2) (m1 * m2) (e1 + e2)

/-- Go's unary `-x` on `float64`. -/
def F64.neg : F64 → F64
  | .nan => .nan
  | .inf s => .inf (!s)
  | .fin s m e => .fin (!s) m e

/-- Go's `x - y` on `float64`. -/
def F64.sub (x y : F64) : F64 := F64.add x (F64.neg y)

/-- Go's `x / y` on `float64`. -/
def F64.div : F64 → F64 → F64
  | .nan, _ => .nan
  | _, .nan => .nan
  | .inf _, .inf _ => .nan
  | .inf a, .fin s _ _ => .inf (xor a s)
  | .fin s _ _, .inf b => .fin (xor s b) 0 (-1074)
  | .fin s1 m1 e1, .fin s2 m2 e2 =>
    if m2 = 0 then (if m1 = 0 then .nan else .inf (xor s1 s2))
    else if e2 ≤ e1 then F64.round (xor s1 s2) (m1 * 2 ^ (e1 - e2).toNat) m2
    else F64.round (xor s1 s2) m1 (m2 * 2 ^ (e2 - e1).toNat)

/-- The fused multiply-add: `x*y + z` computed exactly and rounded once. -/
def F64.fma : F64 → F64 → F64 → F64
  | .fin _ _ _, .fin _ _ _, .nan => .nan
  | .fin _ _ _, .fin _ _ _, .inf s => .inf s
  | .fin s1 m1 e1, .fin s2 m2 e2, .fin s3 m3 e3 =>
    let e := min (e1 + e2) e3
    let z := signed (xor s1 s2) (m1 * m2 * 2 ^ (e1 + e2 - e).toNat) +
      signed s3 (m3 * 2 ^ (e3 - e).toNat)
    if z = 0 then .fin (xor s1 s2 && s3) 0 (-1074)
    else F64.roundDyadic (decide (z < 0)) z.natAbs e
  | x, y, z => F64.add (F64.mul x y) z

/-- The expression `x*y + z` as a build of the program evaluates it. The Go
specification lets an implementation fuse the two operations into one with a
single rounding, and whether the compiler does depends on the target
(`fused = false` on plain amd64, `fused = true` on arm64 for instance). -/
def F64.mulAdd (fused : Bool) (x y z : F64) : F64 :=
  if fused then F64.fma x y z else F64.add (F64.mul x y) z

/-- The `float64` a decimal constant of the source denotes: the constant
`n / d` rounded to binary64. -/
def F64.ofRatio (n d : Nat) : F64 := F64.round false n d

/-- Neither a NaN nor an infinity. -/
def F64.isFinite : F64 → Bool
  | .fin _ _ _ => true
  | _ => false

/-- The rational a finite `float64` stands for (`0` for NaN and infinities). -/
def F64.toRat : F64 → ℚ
  | .fin neg m e => (if neg then -1 else 1) * (m : ℚ) * (2 : ℚ) ^ e
  | _ => 0

/-- The values of type `float64`: NaN, the two infinities, and the finite
values with `m < 2^53`, `-1074 ≤ e ≤ 971` and either `2^52 ≤ m` (normal) or
`e = -1074` (subnormal numbers and the two zeros). -/
def F64.wf : F64 → Prop
  | .fin _ m e => m < 2 ^ 53 ∧ -1074 ≤ e ∧ e ≤ 971 ∧ (2 ^ 52 ≤ m ∨ e = -1074)
  | _ => True

/-- The constant `1.8` of `tempC*1.8 + 32`. -/
def const1_8 : F64 := F64.ofRatio 18 10

/-- The constant `32` of `tempC*1.8 + 32`. -/
def const32 : F64 := F64.ofRatio 32 1

/-- The constant `273.15` of `tempC + 273.15`. -/
def const273_15 : F64 := F64.ofRatio 27315 100

/-! ## Data model of `cmd/main.go` -/

structure TemperatureResponse where
  TempC : F64
  TempF : F64
  TempK : F64
deriving DecidableEq, Repr

structure ErrorResponse where
  Message : String
deriving DecidableEq, Repr

structure ViaCEPResponse where
  CEP : String
  Logradouro : String
  Complemento : String
  Bairro : String
  Localidade : String
  UF : String
  IBGE : String
  GIA : String
  DDD : String
  SIAFI : String
  Erro : Bool
deriving DecidableEq, Repr

/-- The field `r.URL` of a request; only `Path` is read. -/
structure URL where
  Path : String
deriving DecidableEq, Repr

/-- The fields of `*http.Request` the handler reads. -/
structure Request where
  Method : String
  URL : URL
deriving DecidableEq, Repr

/-- The document `json.NewEncoder(w).Encode` has written to the response, if
any; the JSON text is determined by the encoded record. -/
inductive Body
  | empty
  | errorJSON (r : ErrorResponse)
  | temperatureJSON (r : TemperatureResponse)
deriving DecidableEq, Repr

/-- What a `http.ResponseWriter` has received: the header map, the status
code passed to `WriteHeader` and the body. -/
structure ResponseWriter where
  header : List (String × String)
  status : Option Nat
  body : Body
deriving DecidableEq, Repr

/-- A fresh response writer, as `httptest.NewRecorder()` gives. -/
def ResponseWriter.new : ResponseWriter := ⟨[], none, .empty⟩

/-- The call `w.Header().Set(key, value)`. -/
def ResponseWriter.setHeader (w : ResponseWriter) (key value : String) : ResponseWriter :=
  { w with header := w.header.filter (fun p => p.1 != key) ++ [(key, value)] }

/-- The call `w.WriteHeader(statusCode)`; only the first call on a writer
sets the status. -/
def ResponseWriter.writeHeader (w : ResponseWriter) (statusCode : Nat) : ResponseWriter :=
  match w.status with
  | none => { w with status := some statusCode }
  | some _ => w

/-- The call `json.NewEncoder(w).Encode(response)` for an `ErrorResponse`. -/
def ResponseWriter.encodeError (w : ResponseWriter) (response : ErrorResponse) :
    ResponseWriter :=
  { w with body := .errorJSON response }

/-- The call `json.NewEncoder(w).Encode(response)` for a `TemperatureResponse`.
`encoding/json` refuses NaN and the infinities with an `UnsupportedValueError`
and then writes nothing; the handler ignores the error. -/
def ResponseWriter.encodeTemperature (w : ResponseWriter) (response : TemperatureResponse) :
    ResponseWriter :=
  if response.TempC.isFinite && response.TempF.isFinite && response.TempK.isFinite then
    { w with body := .temperatureJSON response }
  else w

def StatusOK : Nat := 200
def StatusBadRequest : Nat := 400
def StatusNotFound : Nat := 404
def StatusMethodNotAllowed : Nat := 405
def StatusUnprocessableEntity : Nat := 422
def StatusInternalServerError : Nat := 500
def MethodGet : String := "GET"

/-- A call to one of the two collaborators, with its argument. -/
inductive Call
  | getCEPInfo (cep : String)
  | getWeather (city : String)
deriving DecidableEq, Repr

/-- The package-level function variables `getCEPInfo` and `getWeather`. -/
structure Collaborators where
  getCEPInfo : String → Except GoError ViaCEPResponse
  getWeather : String → Except GoError F64

/-- A response writer after the handler returned, with the collaborator calls
the handler made, in order. -/
structure Outcome where
  w : ResponseWriter
  calls : List Call
deriving DecidableEq, Repr

/-! ## The functions of `cmd/main.go` -/

def respondWithError (w : ResponseWriter) (statusCode : Nat) (message : String) :
    ResponseWriter :=
  let w := w.setHeader "Content-Type" "application/json"
  let w := w.writeHeader statusCode
  let response : ErrorResponse := { Message := message }
  w.encodeError response

/-- The handler. `fused` tells how the build evaluates `tempC*1.8 + 32`
(`F64.mulAdd`); nothing else in the handler depends on the build. -/
def weatherHandler (fused : Bool) (c : Collaborators) (w : ResponseWriter) (r : Request) :
    Outcome :=
  if r.Method != MethodGet then
    ⟨respondWithError w StatusMethodNotAllowed "Método não permitido", []⟩
  else
    let path := r.URL.Path
    let submatches := findStringSubmatch path.data
    if submatches.length < 2 then
      ⟨respondWithError w StatusBadRequest "CEP não fornecido", []⟩
    else
      let cep := submatches.getD 1 []
      if !matchValidCep cep then
        ⟨respondWithError w StatusUnprocessableEntity "invalid zipcode", []⟩
      else
        match c.getCEPInfo (String.mk cep) with
        | .error _ =>
          ⟨respondWithError w StatusNotFound "can not find zipcode",
            [.getCEPInfo (String.mk cep)]⟩
        | .ok location =>
          match c.getWeather location.Localidade with
          | .error _ =>
            ⟨respondWithError w StatusInternalServerError "Erro ao obter dados do clima",
              [.getCEPInfo (String.mk cep), .getWeather location.Localidade]⟩
          | .ok tempC =>
            let tempF := F64.mulAdd fused tempC const1_8 const32
            let tempK := F64.add tempC const273_15
            let response : TemperatureResponse :=
              { TempC := tempC, TempF := tempF, TempK := tempK }
            let w := w.setHeader "Content-Type" "application/json"
            let w := w.writeHeader StatusOK
            ⟨w.encodeTemperature response,
              [.getCEPInfo (String.mk cep), .getWeather location.Localidade]⟩

/-- The reply of `http.Get`: the status code and what `io.ReadAll(resp.Body)`
returns, the bytes read and the error that stopped the reading, if any. -/
structure HttpResponse where
  StatusCode : Nat
  Body : String
  ReadErr : Option GoError

structure Location where
  Name : String
  Region : String
  Country : String
deriving DecidableEq, Repr

structure Current where
  TempC : F64
deriving DecidableEq, Repr

structure WeatherAPIResponse where
  Location : Location
  Current : Current
deriving DecidableEq, Repr

/-- What the two fetch functions reach outside the program: `http.Get`,
`json.Unmarshal` into either reply record, `url.QueryEscape` and the
environment variable `WEATHER_API_KEY`. -/
structure Network where
  httpGet : String → Except GoError HttpResponse
  unmarshalViaCEP : String → Except GoError ViaCEPResponse
  unmarshalWeather : String → Except GoError WeatherAPIResponse
  queryEscape : String → String
  apiKey : String

/-- The function the variable `getCEPInfo` holds at start-up. -/
def getCEPInfo (net : Network) (cep : String) : Except GoError ViaCEPResponse :=
  let url := "https://viacep.com.br/ws/" ++ cep ++ "/json/"
  match net.httpGet url with
  | .error err => .error ("erro na requisição: " ++ err)
  | .ok resp =>
    if resp.StatusCode != StatusOK then
      .error ("status de resposta inválido: " ++ toString resp.StatusCode)
    else
      match resp.ReadErr with
      | some err => .error ("erro ao ler resposta: " ++ err)
      | none =>
        match net.unmarshalViaCEP resp.Body with
        | .error err => .error ("erro ao decodificar JSON: " ++ err)
        | .ok cepInfo =>
          if cepInfo.Erro || cepInfo.Localidade == "" then .error "CEP não encontrado"
          else .ok cepInfo

/-- The function the variable `getWeather` holds at start-up. -/
def getWeather (net : Network) (city : String) : Except GoError F64 :=
  let apiKey := net.apiKey
  if apiKey == "" then .error "chave da API de clima não configurada"
  else
    let query := city
    let encodedQuery := net.queryEscape query
    let apiURL := "https://api.weatherapi.com/v1/current.json?key=" ++ apiKey ++ "&q=" ++
      encodedQuery ++ "&aqi=no"
    match net.httpGet apiURL with
    | .error err => .error ("erro na requisição: " ++ err)
    | .ok resp =>
      if resp.StatusCode != StatusOK then
        .error ("erro ao consultar API do clima (status " ++ toString resp.StatusCode ++
          "): " ++ resp.Body)
      else
        match resp.ReadErr with
        | some err => .error ("erro ao ler resposta: " ++ err)
        | none =>
          match net.unmarshalWeather resp.Body with
          | .error err => .error ("erro ao decodificar JSON: " ++ err)
          | .ok weatherInfo => .ok weatherInfo.Current.TempC

/-! ## The mocks of `cmd/main_test.go` -/

def mockGetCEPInfo (cep : String) : Except GoError ViaCEPResponse :=
  if cep == "01001000" then
    .ok { CEP := "01001-000", Logradouro := "Praça da Sé", Complemento := "",
          Bairro := "Sé", Localidade := "São Paulo", UF := "SP", IBGE := "3550308",
          GIA := "", DDD := "", SIAFI := "", Erro := false }
  else .error "CEP não encontrado"

def mockGetWeather (city : String) : Except GoError F64 :=
  if city == "São Paulo" then .ok (F64.ofRatio 255 10)
  else .error "Cidade não encontrada"

/-- The two mocks installed by `TestWeatherHandlerValidCEP`. -/
def mocks : Collaborators := ⟨mockGetCEPInfo, mockGetWeather⟩

/-! ## Fixtures and vocabulary of the statements -/

/-- The header map every response of the handler carries. -/
def jsonHeader : List (String × String) := [("Content-Type", "application/json")]

/-- What the client receives from `respondWithError` on a fresh writer. -/
def errorReply (statusCode : Nat) (message : String) : ResponseWriter :=
  ⟨jsonHeader, some statusCode, .errorJSON ⟨message⟩⟩

/-- Two collaborator results that differ at most in the error they carry. -/
def sameUpToError {α : Type} : Except GoError α → Except GoError α → Prop
  | .ok x, .ok y => x = y
  | .error _, .error _ => True
  | _, _ => False

/-- The collaborators of a process started without `WEATHER_API_KEY`, behind
the lookup mock of the tests. -/
def mocksNoKey : Collaborators :=
  ⟨mockGetCEPInfo, getWeather ⟨fun _ => .error "no network", fun _ => .error "no input",
    fun _ => .error "no input", id, ""⟩⟩

/-- A network that answers every lookup with status 200 and one body, and a
decoder that reads that body as the record of Praça da Sé and refuses any
other. -/
def networkSe : Network :=
  { httpGet := fun _ => .ok ⟨200, "\x7b\"localidade\": \"São Paulo\"\x7d", none⟩
    unmarshalViaCEP := fun body =>
      if body == "\x7b\"localidade\": \"São Paulo\"\x7d" then mockGetCEPInfo "01001000"
      else .error "unexpected end of JSON input"
    unmarshalWeather := fun _ => .error "no input"
    queryEscape := id
    apiKey := "" }

/-- The lookup mock of the tests with another error text. -/
def mocksOtherError : Collaborators :=
  ⟨fun cep => if cep == "01001000" then mockGetCEPInfo cep
    else .error "status de resposta inválido: 503",
   fun city => if city == "São Paulo" then mockGetWeather city
    else .error "erro na requisição: timeout"⟩

/-- A weather mock for a reply with `"temp_c": 1e308`. -/
def mocksOverflow : Collaborators :=
  ⟨mockGetCEPInfo, fun _ => .ok (F64.ofRatio (10 ^ 308) 1)⟩

/-- The sign factor of `fin neg m e`. -/
def sgn (neg : Bool) : ℚ := if neg then -1 else 1

/-! ## The route pattern on a path that starts with the route prefix -/

theorem stripLiteral_append (l s : List Char) : stripLiteral l (l ++ s) = some s := by
  induction l with
  | nil => cases s <;> rfl
  | cons a l ih => simp [stripLiteral, ih]

theorem matchHere_route (s : List Char) :
    matchHere (routeLiteral ++ s) =
      (match s.takeWhile dot with
        | [] => none
        | c :: cs => some (c :: cs)) := by
  unfold matchHere
  rw [stripLiteral_append]

theorem findStringSubmatch_route (c : Char) (cs : List Char) (h : dot c = true) :
    findStringSubmatch (routeLiteral ++ c :: cs) =
      [routeLiteral ++ (c :: cs).takeWhile dot, (c :: cs).takeWhile dot] := by
  have hcons : routeLiteral ++ c :: cs = '/' :: ("weather/".data ++ c :: cs) := rfl
  rw [hcons, findStringSubmatch, ← hcons, matchHere_route]
  simp [List.takeWhile, h]

theorem digit_dot (c : Char) (h : digit c = true) : dot c = true := by
  unfold digit at h
  unfold dot
  simp only [Bool.and_eq_true, decide_eq_true_eq] at h
  simp only [bne_iff_ne, ne_eq]
  rintro rfl
  exact absurd h.1 (by decide)

theorem takeWhile_dot_self (s : List Char) (h : ∀ c ∈ s, dot c = true) :
    s.takeWhile dot = s := by
  induction s with
  | nil => rfl
  | cons a s ih =>
    have ha : dot a = true := h a (List.mem_cons_self a s)
    rw [List.takeWhile_cons, ha]
    simp only [if_true]
    rw [ih (fun c hc => h c (List.mem_cons_of_mem a hc))]

/-- On a path made of the route prefix and a non-empty text without line
feed, the capture group is that text. -/
theorem findStringSubmatch_prefix (s : String) (hne : s ≠ "")
    (hnl : ∀ c ∈ s.data, dot c = true) :
    findStringSubmatch ("/weather/" ++ s).data = [routeLiteral ++ s.data, s.data] := by
  rw [String.data_append]
  obtain ⟨l⟩ := s
  cases l with
  | nil => exact absurd rfl hne
  | cons c cs =>
    have hc : dot c = true := hnl c (List.mem_cons_self c cs)
    have h := findStringSubmatch_route c cs hc
    rw [takeWhile_dot_self (c :: cs) hnl] at h
    exact h

theorem matchValidCep_dot (s : List Char) (h : matchValidCep s = true) :
    ∀ c ∈ s, dot c = true := by
  unfold matchValidCep at h
  simp only [Bool.and_eq_true, List.all_eq_true] at h
  exact fun c hc => digit_dot c (h.2 c hc)

theorem matchValidCep_ne (s : String) (h : matchValidCep s.data = true) : s ≠ "" := by
  rintro rfl
  exact absurd h (by decide)

/-! ## The handler, branch by branch -/

theorem respondWithError_new (statusCode : Nat) (message : String) :
    respondWithError .new statusCode message = errorReply statusCode message := rfl

/-- The handler on a `GET` request whose path is the route prefix followed by
eight digits: the two collaborator calls and the three replies that remain. -/
theorem weatherHandler_valid (fused : Bool) (c : Collaborators) (r : Request) (cep : String)
    (hm : r.Method = "GET") (hp : r.URL.Path = "/weather/" ++ cep)
    (hv : matchValidCep cep.data = true) :
    weatherHandler fused c .new r =
      match c.getCEPInfo cep with
      | .error _ => ⟨errorReply 404 "can not find zipcode", [.getCEPInfo cep]⟩
      | .ok location =>
        match c.getWeather location.Localidade with
        | .error _ =>
          ⟨errorReply 500 "Erro ao obter dados do clima",
            [.getCEPInfo cep, .getWeather location.Localidade]⟩
        | .ok tempC =>
          ⟨(ResponseWriter.mk jsonHeader (some 200) .empty).encodeTemperature
              ⟨tempC, F64.mulAdd fused tempC const1_8 const32, F64.add tempC const273_15⟩,
            [.getCEPInfo cep, .getWeather location.Localidade]⟩ := by
  have hsub := findStringSubmatch_prefix cep (matchValidCep_ne cep hv)
    (matchValidCep_dot cep.data hv)
  have hmk : String.mk cep.data = cep := rfl
  simp only [weatherHandler, hm, hp, hsub, MethodGet, bne_self_eq_false, Bool.false_eq_true,
    if_false, List.length_cons, List.length_nil, List.getD_cons_succ, List.getD_cons_zero, hv,
    Bool.not_true, hmk]
  cases c.getCEPInfo cep with
  | error e => rfl
  | ok location =>
    cases c.getWeather location.Localidade with
    | error e => rfl
    | ok tempC => rfl

/-- The handler on a `GET` request whose path is the route prefix followed by
a non-empty text without line feed that is not eight ASCII digits: reply 422
with the message "invalid zipcode" and no collaborator call. -/
theorem weatherHandler_invalid_single_line (fused : Bool) (c : Collaborators) (r : Request) (s : String)
    (hm : r.Method = "GET") (hp : r.URL.Path = "/weather/" ++ s) (hne : s ≠ "")
    (hnl : ∀ ch ∈ s.data, ch ≠ '\n') (hv : matchValidCep s.data = false) :
    weatherHandler fused c .new r = ⟨errorReply 422 "invalid zipcode", []⟩ := by
  have hsub := findStringSubmatch_prefix s hne
    (fun ch hch => by simpa [dot] using hnl ch hch)
  simp only [weatherHandler, hm, hp, hsub, MethodGet, bne_self_eq_false, Bool.false_eq_true,
    if_false, List.length_cons, List.length_nil, List.getD_cons_succ, List.getD_cons_zero, hv]
  rfl

/-- C1, at the request `GET /weather/01001000%0A`, whose path is the route
prefix followed by `01001000` and a line feed: the capture group stops before
the line feed, the eight digits pass the validation, both collaborators are
called and the reply is 200, where the claim promises 422 and no call; on
either build. -/
theorem weatherHandler_trailing_line_feed :
    weatherHandler false mocks .new ⟨"GET", ⟨"/weather/01001000\n"⟩⟩ =
        ⟨⟨jsonHeader, some 200,
            .temperatureJSON
              ⟨F64.ofRatio 255 10, F64.ofRatio 779 10, F64.ofRatio 29865 100⟩⟩,
          [.getCEPInfo "01001000", .getWeather "São Paulo"]⟩ ∧
      weatherHandler true mocks .new ⟨"GET", ⟨"/weather/01001000\n"⟩⟩ =
        ⟨⟨jsonHeader, some 200,
            .temperatureJSON
              ⟨F64.ofRatio 255 10, F64.ofRatio 779 10, F64.ofRatio 29865 100⟩⟩,
          [.getCEPInfo "01001000", .getWeather "São Paulo"]⟩ := by
  decide

/-- C3: on a `GET` request whose path is the route prefix followed by eight
digits, when `getCEPInfo` returns an error, whatever it is, the reply is 404
with the message "can not find zipcode" and the only collaborator call is the
one to `getCEPInfo`. -/
theorem weatherHandler_lookup_error (fused : Bool) (c : Collaborators) (r : Request) (cep : String)
    (err : GoError) (hm : r.Method = "GET") (hp : r.URL.Path = "/weather/" ++ cep)
    (hv : matchValidCep cep.data = true) (hc : c.getCEPInfo cep = .error err) :
    weatherHandler fused c .new r =
      ⟨⟨jsonHeader, some 404, .errorJSON ⟨"can not find zipcode"⟩⟩, [.getCEPInfo cep]⟩ := by
  rw [weatherHandler_valid fused c r cep hm hp hv, hc]
  rfl

theorem weatherHandler_lookup_error_witness :
    weatherHandler false mocks .new ⟨"GET", ⟨"/weather/99999999"⟩⟩ =
      ⟨⟨jsonHeader, some 404, .errorJSON ⟨"can not find zipcode"⟩⟩,
        [.getCEPInfo "99999999"]⟩ :=
  weatherHandler_lookup_error false mocks ⟨"GET", ⟨"/weather/99999999"⟩⟩ "99999999"
    "CEP não encontrado" rfl rfl (by decide) rfl

/-- C4, as the code has it: on a `GET` request with eight digits for which
`getCEPInfo` succeeds and `getWeather` returns an error, the reply is 500 and
the message is the Portuguese text "Erro ao obter dados do clima". -/
theorem weatherHandler_weather_error (fused : Bool) (c : Collaborators) (r : Request) (cep : String)
    (location : ViaCEPResponse) (err : GoError) (hm : r.Method = "GET")
    (hp : r.URL.Path = "/weather/" ++ cep) (hv : matchValidCep cep.data = true)
    (hc : c.getCEPInfo cep = .ok location)
    (hw : c.getWeather location.Localidade = .error err) :
    weatherHandler fused c .new r =
      ⟨⟨jsonHeader, some 500, .errorJSON ⟨"Erro ao obter dados do clima"⟩⟩,
        [.getCEPInfo cep, .getWeather location.Localidade]⟩ := by
  rw [weatherHandler_valid fused c r cep hm hp hv, hc]
  simp only [hw]
  rfl

theorem weatherHandler_weather_error_witness :
    weatherHandler false mocksNoKey .new ⟨"GET", ⟨"/weather/01001000"⟩⟩ =
      ⟨⟨jsonHeader, some 500, .errorJSON ⟨"Erro ao obter dados do clima"⟩⟩,
        [.getCEPInfo "01001000", .getWeather "São Paulo"]⟩ :=
  weatherHandler_weather_error false mocksNoKey ⟨"GET", ⟨"/weather/01001000"⟩⟩ "01001000"
    { CEP := "01001-000", Logradouro := "Praça da Sé", Complemento := "",
      Bairro := "Sé", Localidade := "São Paulo", UF := "SP", IBGE := "3550308",
      GIA := "", DDD := "", SIAFI := "", Erro := false }
    "chave da API de clima não configurada" rfl rfl (by decide) rfl rfl

/-- C4 as stated fails: with a successful lookup and a failing weather fetch
the message of the 500 reply is not "error fetching weather data". -/
theorem weatherHandler_weather_error_message :
    ((weatherHandler false mocksNoKey .new ⟨"GET", ⟨"/weather/01001000"⟩⟩).w.status = some 500 ∧
      (weatherHandler false mocksNoKey .new ⟨"GET", ⟨"/weather/01001000"⟩⟩).w.body ≠
        .errorJSON ⟨"error fetching weather data"⟩) ∧
    ((weatherHandler true mocksNoKey .new ⟨"GET", ⟨"/weather/01001000"⟩⟩).w.status = some 500 ∧
      (weatherHandler true mocksNoKey .new ⟨"GET", ⟨"/weather/01001000"⟩⟩).w.body ≠
        .errorJSON ⟨"error fetching weather data"⟩) := by
  decide

/-- C5: on a request whose method is not `GET`, whatever the path, the reply
is 405 and no collaborator is called. -/
theorem weatherHandler_method_not_allowed (fused : Bool) (c : Collaborators) (r : Request)
    (hm : r.Method ≠ "GET") :
    weatherHandler fused c .new r =
      ⟨⟨jsonHeader, some 405, .errorJSON ⟨"Método não permitido"⟩⟩, []⟩ := by
  simp only [weatherHandler, MethodGet, bne_iff_ne, ne_eq, hm, not_false_eq_true, if_true]
  rfl

theorem weatherHandler_method_not_allowed_witness :
    weatherHandler false mocks .new ⟨"POST", ⟨"/weather/01001000"⟩⟩ =
      ⟨⟨jsonHeader, some 405, .errorJSON ⟨"Método não permitido"⟩⟩, []⟩ :=
  weatherHandler_method_not_allowed false mocks ⟨"POST", ⟨"/weather/01001000"⟩⟩ (by decide)

/-- C6, as the code has it: on a `GET` request whose path is the route prefix
with nothing after it, the reply is 400, the message is the Portuguese text
"CEP não fornecido" and no collaborator is called. -/
theorem weatherHandler_missing_code (fused : Bool) (c : Collaborators) (r : Request)
    (hm : r.Method = "GET") (hp : r.URL.Path = "/weather/") :
    weatherHandler fused c .new r =
      ⟨⟨jsonHeader, some 400, .errorJSON ⟨"CEP não fornecido"⟩⟩, []⟩ := by
  have hsub : findStringSubmatch "/weather/".data = [] := by decide
  simp only [weatherHandler, hm, hp, hsub, MethodGet, bne_self_eq_false, Bool.false_eq_true,
    if_false, List.length_nil]
  rfl

theorem weatherHandler_missing_code_witness :
    weatherHandler false mocks .new ⟨"GET", ⟨"/weather/"⟩⟩ =
      ⟨⟨jsonHeader, some 400, .errorJSON ⟨"CEP não fornecido"⟩⟩, []⟩ :=
  weatherHandler_missing_code false mocks ⟨"GET", ⟨"/weather/"⟩⟩ rfl rfl

/-- C6 as stated fails: the message of the 400 reply to `GET /weather/` is not
"postal code not provided". -/
theorem weatherHandler_missing_code_message :
    ((weatherHandler false mocks .new ⟨"GET", ⟨"/weather/"⟩⟩).w.status = some 400 ∧
      (weatherHandler false mocks .new ⟨"GET", ⟨"/weather/"⟩⟩).w.body ≠
        .errorJSON ⟨"postal code not provided"⟩) ∧
    ((weatherHandler true mocks .new ⟨"GET", ⟨"/weather/"⟩⟩).w.status = some 400 ∧
      (weatherHandler true mocks .new ⟨"GET", ⟨"/weather/"⟩⟩).w.body ≠
        .errorJSON ⟨"postal code not provided"⟩) := by
  decide

/-- C8: when the postal-lookup reply arrived with status 200, was read in full
and decoded into the record `v`, `getCEPInfo` fails exactly when `v.Erro` is
set or `v.Localidade` is empty, and otherwise returns `v` unchanged; so every
successful result has a non-empty locality name and `Erro = false`. -/
theorem getCEPInfo_decoded (net : Network) (cep : String) (resp : HttpResponse)
    (v : ViaCEPResponse)
    (hget : net.httpGet ("https://viacep.com.br/ws/" ++ cep ++ "/json/") = .ok resp)
    (hstatus : resp.StatusCode = 200) (hread : resp.ReadErr = none)
    (hdec : net.unmarshalViaCEP resp.Body = .ok v) :
    ((∃ err, getCEPInfo net cep = .error err) ↔ (v.Erro = true ∨ v.Localidade = "")) ∧
      (¬ (v.Erro = true ∨ v.Localidade = "") → getCEPInfo net cep = .ok v) ∧
      (∀ out, getCEPInfo net cep = .ok out →
        out = v ∧ out.Localidade ≠ "" ∧ out.Erro = false) := by
  have hrun : getCEPInfo net cep =
      if v.Erro || v.Localidade == "" then .error "CEP não encontrado" else .ok v := by
    simp only [getCEPInfo, hget, hstatus, hread, hdec, StatusOK, bne_self_eq_false,
      Bool.false_eq_true, if_false]
  by_cases hbad : v.Erro = true ∨ v.Localidade = ""
  · have hcond : (v.Erro || v.Localidade == "") = true := by
      simpa [Bool.or_eq_true, beq_iff_eq] using hbad
    rw [hrun, hcond]
    simp only [if_true]
    refine ⟨⟨fun _ => hbad, fun _ => ⟨_, rfl⟩⟩, fun h => absurd hbad h, ?_⟩
    intro out hout
    cases hout
  · have hcond : (v.Erro || v.Localidade == "") = false := by
      simpa [Bool.or_eq_false_iff, beq_eq_false_iff_ne] using hbad
    rw [hrun, hcond]
    simp only [Bool.false_eq_true, if_false]
    refine ⟨⟨fun ⟨err, herr⟩ => (by cases herr), fun h => absurd h hbad⟩, fun _ => trivial, ?_⟩
    intro out hout
    cases hout
    refine ⟨rfl, fun h => hbad (Or.inr h), ?_⟩
    cases hE : v.Erro
    · rfl
    · exact absurd (Or.inl hE) hbad

theorem getCEPInfo_decoded_witness :
    getCEPInfo networkSe "01001000" = mockGetCEPInfo "01001000" := by
  have h := getCEPInfo_decoded networkSe "01001000"
    ⟨200, "\x7b\"localidade\": \"São Paulo\"\x7d", none⟩
    { CEP := "01001-000", Logradouro := "Praça da Sé", Complemento := "",
      Bairro := "Sé", Localidade := "São Paulo", UF := "SP", IBGE := "3550308",
      GIA := "", DDD := "", SIAFI := "", Erro := false } rfl rfl rfl rfl
  exact h.2.1 (by decide)

/-- C9: the reply does not depend on the content of a collaborator's error.
Two runs of the handler on one request, whose collaborators return the same
values and fail on the same arguments but with errors of any content, end
with the same status, header map and body (and the same calls). -/
theorem weatherHandler_error_content (fused : Bool) (c1 c2 : Collaborators) (r : Request)
    (hcep : ∀ cep, sameUpToError (c1.getCEPInfo cep) (c2.getCEPInfo cep))
    (hweather : ∀ city, sameUpToError (c1.getWeather city) (c2.getWeather city)) :
    weatherHandler fused c1 .new r = weatherHandler fused c2 .new r := by
  unfold weatherHandler
  split
  · rfl
  · dsimp only
    split
    · rfl
    · split
      · rfl
      · rename_i hvalid
        generalize hx : String.mk ((findStringSubmatch r.URL.Path.data).getD 1 []) = cep
        have h1 := hcep cep
        cases hc1 : c1.getCEPInfo cep with
        | error e1 =>
          cases hc2 : c2.getCEPInfo cep with
          | error e2 => rfl
          | ok l2 => rw [hc1, hc2] at h1; exact absurd h1 (by simp [sameUpToError])
        | ok l1 =>
          cases hc2 : c2.getCEPInfo cep with
          | error e2 => rw [hc1, hc2] at h1; exact absurd h1 (by simp [sameUpToError])
          | ok l2 =>
            rw [hc1, hc2] at h1
            have hl : l1 = l2 := h1
            subst hl
            have h2 := hweather l1.Localidade
            cases hw1 : c1.getWeather l1.Localidade with
            | error e1 =>
              cases hw2 : c2.getWeather l1.Localidade with
              | error e2 => simp only [hw1, hw2]
              | ok t2 => rw [hw1, hw2] at h2; exact absurd h2 (by simp [sameUpToError])
            | ok t1 =>
              cases hw2 : c2.getWeather l1.Localidade with
              | error e2 => rw [hw1, hw2] at h2; exact absurd h2 (by simp [sameUpToError])
              | ok t2 =>
                rw [hw1, hw2] at h2
                have ht : t1 = t2 := h2
                subst ht
                simp only [hw1, hw2]

theorem weatherHandler_error_content_witness :
    weatherHandler false mocks .new ⟨"GET", ⟨"/weather/99999999"⟩⟩ =
      weatherHandler false mocksOtherError .new ⟨"GET", ⟨"/weather/99999999"⟩⟩ :=
  weatherHandler_error_content false mocks mocksOtherError ⟨"GET", ⟨"/weather/99999999"⟩⟩
    (fun cep => by
      by_cases h : cep = "01001000"
      · simp [mocks, mocksOtherError, mockGetCEPInfo, h, sameUpToError]
      · simp [mocks, mocksOtherError, mockGetCEPInfo, h, sameUpToError])
    (fun city => by
      by_cases h : city = "São Paulo"
      · simp [mocks, mocksOtherError, mockGetWeather, h, sameUpToError]
      · simp [mocks, mocksOtherError, mockGetWeather, h, sameUpToError])

/-- The calls of the handler: none, or a call to `getCEPInfo` with a text that
passed the validation on a `GET` request, followed, when that call succeeded,
by a call to `getWeather` with the locality name it returned. -/
theorem weatherHandler_calls_cases (fused : Bool) (c : Collaborators) (r : Request) :
    (weatherHandler fused c .new r).calls = [] ∨
      ∃ cap, r.Method = "GET" ∧ matchValidCep cap = true ∧
        ((∃ err, c.getCEPInfo (String.mk cap) = .error err ∧
            (weatherHandler fused c .new r).calls = [.getCEPInfo (String.mk cap)]) ∨
          (∃ location, c.getCEPInfo (String.mk cap) = .ok location ∧
            (weatherHandler fused c .new r).calls =
              [.getCEPInfo (String.mk cap), .getWeather location.Localidade])) := by
  unfold weatherHandler
  by_cases hm : (r.Method != MethodGet) = true
  · simp only [hm, if_true, true_or]
  · have hm' : r.Method = "GET" := by simpa [MethodGet] using hm
    have hmb : (r.Method != MethodGet) = false := by simpa using hm
    simp only [hmb, Bool.false_eq_true, if_false]
    by_cases hl : (findStringSubmatch r.URL.Path.data).length < 2
    · simp only [hl, if_true, true_or]
    · simp only [hl, if_false]
      generalize (findStringSubmatch r.URL.Path.data).getD 1 [] = cap
      by_cases hv : matchValidCep cap = true
      · simp only [hv, Bool.not_true, Bool.false_eq_true, if_false]
        right
        refine ⟨cap, hm', hv, ?_⟩
        cases hc : c.getCEPInfo (String.mk cap) with
        | error e => exact Or.inl ⟨e, rfl, rfl⟩
        | ok location =>
          refine Or.inr ⟨location, rfl, ?_⟩
          cases hw : c.getWeather location.Localidade with
          | error e => simp only [hw]
          | ok tempC => simp only [hw]
      · have hv' : matchValidCep cap = false := by simpa using hv
        simp only [hv', Bool.not_false, if_true, true_or]

/-- C10: for every request, whatever its method and path, each call the
handler makes to `getCEPInfo` is on a `GET` request and passes exactly eight
characters, each in `'0'..'9'`; and when `getWeather` is called, it is the
second call, after a call to `getCEPInfo` that succeeded, and its argument is
the locality name that call returned. -/
theorem weatherHandler_calls (fused : Bool) (c : Collaborators) (r : Request) :
    (∀ cep, Call.getCEPInfo cep ∈ (weatherHandler fused c .new r).calls →
      r.Method = "GET" ∧ cep.length = 8 ∧ ∀ ch ∈ cep.data, '0' ≤ ch ∧ ch ≤ '9') ∧
    (∀ city, Call.getWeather city ∈ (weatherHandler fused c .new r).calls →
      ∃ cep location, (weatherHandler fused c .new r).calls = [.getCEPInfo cep, .getWeather city] ∧
        c.getCEPInfo cep = .ok location ∧ location.Localidade = city) := by
  rcases weatherHandler_calls_cases fused c r with h0 | ⟨cap, hm, hv, hcase⟩
  · rw [h0]
    exact ⟨fun _ h => absurd h (List.not_mem_nil _), fun _ h => absurd h (List.not_mem_nil _)⟩
  · have hprop : r.Method = "GET" ∧ (String.mk cap).length = 8 ∧
        ∀ ch ∈ (String.mk cap).data, '0' ≤ ch ∧ ch ≤ '9' := by
      unfold matchValidCep at hv
      simp only [Bool.and_eq_true, beq_iff_eq, List.all_eq_true] at hv
      refine ⟨hm, hv.1, fun ch hch => ?_⟩
      have := hv.2 ch hch
      simpa [digit] using this
    rcases hcase with ⟨err, hc, hcalls⟩ | ⟨location, hc, hcalls⟩
    · rw [hcalls]
      refine ⟨fun cep h => ?_, fun city h => ?_⟩
      · simp only [List.mem_singleton, Call.getCEPInfo.injEq] at h
        subst h
        exact hprop
      · simp at h
    · rw [hcalls]
      refine ⟨fun cep h => ?_, fun city h => ?_⟩
      · simp only [List.mem_cons, Call.getCEPInfo.injEq, reduceCtorEq, List.mem_singleton,
          or_false, List.not_mem_nil] at h
        subst h
        exact hprop
      · simp only [List.mem_cons, reduceCtorEq, Call.getWeather.injEq, List.mem_singleton,
          false_or, List.not_mem_nil, or_false] at h
        subst h
        exact ⟨_, location, rfl, hc, rfl⟩

/-- C2, for the temperatures the encoder accepts and on either build: on a
`GET` request whose path is the route prefix followed by the eight digits
`cep`, when `getCEPInfo cep` returns a record with locality name `L` and
`getWeather L` returns `t`, and `t`, `t*1.8 + 32` and `t + 273.15` are finite,
the handler has called `getCEPInfo cep` and then `getWeather L`, the status is
200 and the body holds `temp_C = t`, `temp_F = t*1.8 + 32` as the build
evaluates it in `float64` (product and sum rounded one after the other, or
fused and rounded once) and `temp_K = t + 273.15` in `float64`, nothing else
being rounded; for `t = 25.5` the three fields are the `float64` values of
`25.5`, `77.9` and `298.65` on both builds. -/
theorem weatherHandler_success (fused : Bool) (c : Collaborators) (r : Request) (cep : String)
    (location : ViaCEPResponse) (t : F64) (hm : r.Method = "GET")
    (hp : r.URL.Path = "/weather/" ++ cep) (hv : matchValidCep cep.data = true)
    (hc : c.getCEPInfo cep = .ok location) (hw : c.getWeather location.Localidade = .ok t)
    (ht : t.isFinite = true)
    (hF : (F64.mulAdd fused t const1_8 const32).isFinite = true)
    (hK : (F64.add t const273_15).isFinite = true) :
    weatherHandler fused c .new r =
        ⟨⟨jsonHeader, some 200,
            .temperatureJSON
              ⟨t, F64.mulAdd fused t const1_8 const32, F64.add t const273_15⟩⟩,
          [.getCEPInfo cep, .getWeather location.Localidade]⟩ ∧
      (t = F64.ofRatio 255 10 →
        (weatherHandler fused c .new r).w.body =
          .temperatureJSON ⟨F64.ofRatio 255 10, F64.ofRatio 779 10, F64.ofRatio 29865 100⟩) := by
  have hrun : weatherHandler fused c .new r =
      ⟨⟨jsonHeader, some 200,
          .temperatureJSON
            ⟨t, F64.mulAdd fused t const1_8 const32, F64.add t const273_15⟩⟩,
        [.getCEPInfo cep, .getWeather location.Localidade]⟩ := by
    rw [weatherHandler_valid fused c r cep hm hp hv, hc]
    simp only [hw, ResponseWriter.encodeTemperature, ht, hF, hK, Bool.and_self, if_true]
  refine ⟨hrun, fun h25 => ?_⟩
  rw [hrun, h25]
  have hFv : ∀ b : Bool, F64.mulAdd b (F64.ofRatio 255 10) const1_8 const32 =
      F64.ofRatio 779 10 := by decide
  have hKv : F64.add (F64.ofRatio 255 10) const273_15 = F64.ofRatio 29865 100 := by decide
  rw [hFv, hKv]

theorem weatherHandler_success_witness :
    weatherHandler false mocks .new ⟨"GET", ⟨"/weather/01001000"⟩⟩ =
      ⟨⟨jsonHeader, some 200,
          .temperatureJSON ⟨F64.ofRatio 255 10, F64.ofRatio 779 10, F64.ofRatio 29865 100⟩⟩,
        [.getCEPInfo "01001000", .getWeather "São Paulo"]⟩ :=
  (weatherHandler_success false mocks ⟨"GET", ⟨"/weather/01001000"⟩⟩ "01001000"
    { CEP := "01001-000", Logradouro := "Praça da Sé", Complemento := "",
      Bairro := "Sé", Localidade := "São Paulo", UF := "SP", IBGE := "3550308",
      GIA := "", DDD := "", SIAFI := "", Erro := false }
    (F64.ofRatio 255 10) rfl rfl (by decide) rfl rfl (by decide) (by decide) (by decide)).1.trans
    (by decide)

/-- C2 as stated fails for a temperature whose Fahrenheit value overflows: on
the reading `1e308` the value of `t*1.8 + 32` is `+Inf` on either build, the
encoder refuses the record and the reply is 200 with an empty body, without
any `temp_C`. -/
theorem weatherHandler_success_overflow :
    (weatherHandler false mocksOverflow .new ⟨"GET", ⟨"/weather/01001000"⟩⟩ =
        ⟨⟨jsonHeader, some 200, .empty⟩,
          [.getCEPInfo "01001000", .getWeather "São Paulo"]⟩ ∧
      F64.mulAdd false (F64.ofRatio (10 ^ 308) 1) const1_8 const32 = .inf false) ∧
    (weatherHandler true mocksOverflow .new ⟨"GET", ⟨"/weather/01001000"⟩⟩ =
        ⟨⟨jsonHeader, some 200, .empty⟩,
          [.getCEPInfo "01001000", .getWeather "São Paulo"]⟩ ∧
      F64.mulAdd true (F64.ofRatio (10 ^ 308) 1) const1_8 const32 = .inf false) := by
  decide

/-- The two builds differ: on the reading `6.1` the fused evaluation of
`tempC*1.8 + 32` gives the `float64` of `42.98` and the unfused one the next
`float64` above it (`42.980000000000004`). -/
theorem mulAdd_builds_differ :
    F64.mulAdd true (F64.ofRatio 61 10) const1_8 const32 = F64.ofRatio 4298 100 ∧
      F64.mulAdd true (F64.ofRatio 61 10) const1_8 const32 =
        .fin false 6048897249511997 (-47) ∧
      F64.mulAdd false (F64.ofRatio 61 10) const1_8 const32 =
        .fin false 6048897249511998 (-47) := by
  decide

/-! ## Rounding error of the `float64` operations -/

theorem bits_spec (fuel n : Nat) (hn : 0 < n) (hf : n ≤ fuel) :
    n < 2 ^ bits fuel n ∧ 2 ^ bits fuel n ≤ 2 * n := by
  induction fuel generalizing n with
  | zero => omega
  | succ fuel ih =>
    have hne : n ≠ 0 := by omega
    simp only [bits, hne, if_false]
    by_cases h1 : n / 2 = 0
    · have hn1 : n = 1 := by omega
      subst hn1
      have : bits fuel (1 / 2) = 0 := by
        cases fuel <;> simp [bits]
      rw [this]
      norm_num
    · have hpos : 0 < n / 2 := Nat.pos_of_ne_zero h1
      have hle : n / 2 ≤ fuel := by omega
      obtain ⟨h2, h3⟩ := ih (n / 2) hpos hle
      rw [pow_succ]
      constructor <;> omega

theorem bitLength_spec (n : Nat) (hn : 0 < n) :
    n < 2 ^ bitLength n ∧ 2 ^ bitLength n ≤ 2 * n :=
  bits_spec n n hn le_rfl

theorem scaled_spec (n d : Nat) (e : Int) (hd : 0 < d) :
    0 < (scaled n d e).2 ∧
      ((scaled n d e).1 : ℚ) / ((scaled n d e).2 : ℚ) = (n : ℚ) / (d : ℚ) / (2 : ℚ) ^ e := by
  have hdq : (d : ℚ) ≠ 0 := by exact_mod_cast hd.ne'
  unfold scaled
  by_cases he : 0 ≤ e
  · simp only [he, if_true]
    refine ⟨by positivity, ?_⟩
    have : ((2 : ℚ) ^ e) = (2 : ℚ) ^ e.toNat := by
      rw [← zpow_natCast, Int.toNat_of_nonneg he]
    rw [this]
    push_cast
    field_simp
  · simp only [he, if_false]
    refine ⟨hd, ?_⟩
    have hneg : 0 ≤ -e := by omega
    have : ((2 : ℚ) ^ e) = ((2 : ℚ) ^ (-e).toNat)⁻¹ := by
      rw [← zpow_natCast, Int.toNat_of_nonneg hneg, zpow_neg, inv_inv]
    rw [this]
    push_cast
    field_simp

theorem halfEven_spec (n d : Nat) (hd : 0 < d) :
    |((halfEven n d : Nat) : ℚ) - (n : ℚ) / (d : ℚ)| ≤ 1 / 2 := by
  have hdq : (0 : ℚ) < d := by exact_mod_cast hd
  have hdiv : (n : ℚ) = (d : ℚ) * ((n / d : Nat) : ℚ) + ((n % d : Nat) : ℚ) := by
    exact_mod_cast (Nat.div_add_mod n d).symm
  have hr : n % d < d := Nat.mod_lt n hd
  have hrq : ((n % d : Nat) : ℚ) < d := by exact_mod_cast hr
  have hr0 : (0 : ℚ) ≤ ((n % d : Nat) : ℚ) := by positivity
  have key : (n : ℚ) / d = ((n / d : Nat) : ℚ) + ((n % d : Nat) : ℚ) / d := by
    field_simp; linarith
  rw [key]
  unfold halfEven
  simp only
  by_cases h1 : 2 * (n % d) < d
  · simp only [h1, if_true]
    have h1q : 2 * ((n % d : Nat) : ℚ) < d := by exact_mod_cast h1
    rw [abs_le]
    constructor
    · have : ((n % d : Nat) : ℚ) / d ≤ 1 / 2 := by
        rw [div_le_div_iff₀ hdq (by norm_num)]; linarith
      linarith
    · have : 0 ≤ ((n % d : Nat) : ℚ) / d := by positivity
      linarith
  · simp only [h1, if_false]
    have h1q : (d : ℚ) ≤ 2 * ((n % d : Nat) : ℚ) := by exact_mod_cast (not_lt.mp h1)
    have hlow : 1 / 2 ≤ ((n % d : Nat) : ℚ) / d := by
      rw [div_le_div_iff₀ (by norm_num) hdq]; linarith
    have hhigh : ((n % d : Nat) : ℚ) / d ≤ 1 := by
      rw [div_le_one₀ hdq]; exact hrq.le
    by_cases h2 : d < 2 * (n % d)
    · simp only [h2, if_true]
      push_cast
      rw [abs_le]
      constructor <;> linarith
    · simp only [h2, if_false]
      have heq : ((n % d : Nat) : ℚ) / d = 1 / 2 := by
        have : 2 * (n % d) = d := by omega
        have hq : 2 * ((n % d : Nat) : ℚ) = d := by exact_mod_cast this
        rw [div_eq_iff hdq.ne']; linarith
      rw [heq]
      split_ifs
      · rw [abs_le]; constructor <;> linarith
      · push_cast
        rw [abs_le]; constructor <;> linarith

theorem halfEven_le (n d b : Nat) (hd : 0 < d) (h : n < b * d) : halfEven n d ≤ b := by
  have hq : n / d < b := (Nat.div_lt_iff_lt_mul hd).mpr h
  unfold halfEven
  simp only
  split_ifs <;> omega

theorem le_halfEven (n d : Nat) : n / d ≤ halfEven n d := by
  unfold halfEven
  simp only
  split_ifs <;> omega

theorem exponentOf_spec (n d : Nat) (hn : 0 < n) (hd : 0 < d) :
    -1074 ≤ exponentOf n d ∧
      (n : ℚ) / (d : ℚ) / (2 : ℚ) ^ exponentOf n d < 2 ^ 53 ∧
      (exponentOf n d = -1074 ∨ 2 ^ 52 ≤ (n : ℚ) / (d : ℚ) / (2 : ℚ) ^ exponentOf n d) := by
  obtain ⟨hn1, hn2⟩ := bitLength_spec n hn
  obtain ⟨hd1, hd2⟩ := bitLength_spec d hd
  have hnq : (0 : ℚ) < n := by exact_mod_cast hn
  have hdq : (0 : ℚ) < d := by exact_mod_cast hd
  have hn1q : (n : ℚ) < 2 ^ bitLength n := by exact_mod_cast hn1
  have hn2q : (2 : ℚ) ^ bitLength n ≤ 2 * n := by exact_mod_cast hn2
  have hd1q : (d : ℚ) < 2 ^ bitLength d := by exact_mod_cast hd1
  have hd2q : (2 : ℚ) ^ bitLength d ≤ 2 * d := by exact_mod_cast hd2
  have hX : (0 : ℚ) < 2 ^ bitLength n := by positivity
  have hY : (0 : ℚ) < 2 ^ bitLength d := by positivity
  -- the grid step for the unclamped exponent
  have hA : (2 : ℚ) ^ ((bitLength n : Int) - (bitLength d : Int) - 53) =
      2 ^ bitLength n / 2 ^ bitLength d / 2 ^ 53 := by
    rw [zpow_sub₀ (by norm_num), zpow_sub₀ (by norm_num), zpow_natCast, zpow_natCast]
    norm_cast
  have hAlo : (2 : ℚ) ^ 52 * (2 ^ bitLength n / 2 ^ bitLength d / 2 ^ 53) < (n : ℚ) / d := by
    rw [lt_div_iff₀ hdq]
    have h1 : (2 : ℚ) ^ 52 * (2 ^ bitLength n / 2 ^ bitLength d / 2 ^ 53) * d =
        (2 ^ bitLength n * d) / (2 * 2 ^ bitLength d) := by
      field_simp; ring
    rw [h1, div_lt_iff₀ (by positivity)]
    nlinarith
  have hAhi : (n : ℚ) / d < 2 ^ 54 * (2 ^ bitLength n / 2 ^ bitLength d / 2 ^ 53) := by
    rw [div_lt_iff₀ hdq]
    have h1 : (2 : ℚ) ^ 54 * (2 ^ bitLength n / 2 ^ bitLength d / 2 ^ 53) * d =
        (2 * 2 ^ bitLength n * d) / (2 ^ bitLength d) := by
      field_simp; ring
    rw [h1, lt_div_iff₀ hY]
    nlinarith
  set v : ℚ := (n : ℚ) / d with hv
  set k0 : Int := (bitLength n : Int) - (bitLength d : Int) - 53 with hk0
  set A : ℚ := 2 ^ bitLength n / 2 ^ bitLength d / 2 ^ 53 with hAdef
  have hApos : 0 < A := by positivity
  have he1 : ∀ e1 : Int, e1 = max k0 (-1074) →
      0 < (2 : ℚ) ^ e1 ∧ A ≤ (2 : ℚ) ^ e1 ∧ (e1 = -1074 ∨ (2 : ℚ) ^ e1 = A) := by
    intro e1 h
    refine ⟨by positivity, ?_, ?_⟩
    · rw [← hA]
      exact zpow_le_zpow_right₀ (by norm_num) (by rw [h]; exact le_max_left _ _)
    · rcases max_cases k0 (-1074) with ⟨h1, _⟩ | ⟨h1, _⟩
      · right; rw [h, h1, hA]
      · left; rw [h, h1]
  unfold exponentOf
  simp only
  obtain ⟨hP, hAP, hcase⟩ := he1 (max k0 (-1074)) rfl
  obtain ⟨hD, hND⟩ := scaled_spec n d (max k0 (-1074)) hd
  set e1 : Int := max k0 (-1074) with he1def
  set P : ℚ := (2 : ℚ) ^ e1 with hPdef
  have hDq : (0 : ℚ) < ((scaled n d e1).2 : ℚ) := by exact_mod_cast hD
  have hvP : v / P < 2 ^ 54 := by
    rw [div_lt_iff₀ hP]
    calc v < 2 ^ 54 * A := hAhi
      _ ≤ 2 ^ 54 * P := by nlinarith
  have hlo : -1074 ≤ e1 := le_max_right _ _
  by_cases hc : 2 ^ 53 * (scaled n d e1).2 ≤ (scaled n d e1).1
  · simp only [hc, if_true]
    have hcq : (2 : ℚ) ^ 53 * ((scaled n d e1).2 : ℚ) ≤ ((scaled n d e1).1 : ℚ) := by
      exact_mod_cast hc
    have h53 : (2 : ℚ) ^ 53 ≤ v / P := by
      rw [← hND, le_div_iff₀ hDq]; exact hcq
    have hP1 : (2 : ℚ) ^ (e1 + 1) = P * 2 := by
      rw [zpow_add₀ (by norm_num), zpow_one]
    rw [hP1]
    have hdiv : v / (P * 2) = v / P / 2 := by field_simp
    rw [hdiv]
    refine ⟨by omega, by linarith, Or.inr (by linarith)⟩
  · simp only [hc, if_false]
    have hcq : ((scaled n d e1).1 : ℚ) < (2 : ℚ) ^ 53 * ((scaled n d e1).2 : ℚ) := by
      exact_mod_cast (not_le.mp hc)
    have h53 : v / P < 2 ^ 53 := by
      rw [← hND, div_lt_iff₀ hDq]; exact hcq
    refine ⟨hlo, h53, ?_⟩
    rcases hcase with h | h
    · exact Or.inl h
    · right
      rw [le_div_iff₀ hP, h]
      exact hAlo.le

theorem abs_sgn_mul (neg : Bool) (x : ℚ) : |sgn neg * x| = |x| := by
  cases neg <;> simp [sgn]

theorem toRat_fin (neg : Bool) (m : Nat) (e : Int) :
    (F64.fin neg m e).toRat = sgn neg * ((m : ℚ) * (2 : ℚ) ^ e) := by
  simp only [F64.toRat, sgn]
  ring

/-- Rounding a rational below `2^k`, for `k` in the normal range, gives a
finite value within `2^(k-54)` of it. -/
theorem round_close (neg : Bool) (n d : Nat) (k : Int) (hd : 0 < d) (hk : -1021 ≤ k)
    (hk2 : k ≤ 1023) (hv : (n : ℚ) / (d : ℚ) < (2 : ℚ) ^ k) :
    (F64.round neg n d).isFinite = true ∧
      |(F64.round neg n d).toRat - sgn neg * ((n : ℚ) / (d : ℚ))| ≤ (2 : ℚ) ^ (k - 54) := by
  have hpos : (0 : ℚ) < (2 : ℚ) ^ (k - 54) := by positivity
  by_cases hn0 : n = 0
  · subst hn0
    simp only [F64.round, if_true, F64.isFinite, toRat_fin]
    simp only [Nat.cast_zero, zero_mul, zero_div, mul_zero, sub_zero, abs_zero]
    exact ⟨trivial, hpos.le⟩
  · have hn : 0 < n := Nat.pos_of_ne_zero hn0
    obtain ⟨helo, hehi, henorm⟩ := exponentOf_spec n d hn hd
    set e : Int := exponentOf n d with hedef
    obtain ⟨hD, hND⟩ := scaled_spec n d e hd
    have hP : (0 : ℚ) < (2 : ℚ) ^ e := by positivity
    have hDq : (0 : ℚ) < ((scaled n d e).2 : ℚ) := by exact_mod_cast hD
    -- the exponent stays below the one of `2^k`
    have hek : e ≤ k - 53 := by
      rcases henorm with h | h
      · omega
      · have h1 : (2 : ℚ) ^ 52 * (2 : ℚ) ^ e ≤ (n : ℚ) / d := (le_div_iff₀ hP).mp h
        have h2 : (2 : ℚ) ^ ((52 : Int) + e) < (2 : ℚ) ^ k := by
          rw [zpow_add₀ (by norm_num)]
          calc (2 : ℚ) ^ (52 : Int) * (2 : ℚ) ^ e = (2 : ℚ) ^ 52 * (2 : ℚ) ^ e := by norm_cast
            _ ≤ (n : ℚ) / d := h1
            _ < (2 : ℚ) ^ k := hv
        have := (zpow_lt_zpow_iff_right₀ (by norm_num : (1 : ℚ) < 2)).mp h2
        omega
    have herr := halfEven_spec (scaled n d e).1 (scaled n d e).2 hD
    rw [hND] at herr
    set m : Nat := halfEven (scaled n d e).1 (scaled n d e).2 with hmdef
    -- the value of the result, whichever way the carry goes
    have hstep : (2 : ℚ) ^ e ≤ (2 : ℚ) ^ (k - 53) :=
      zpow_le_zpow_right₀ (by norm_num) hek
    have hhalf : (2 : ℚ) ^ (k - 53) = 2 * (2 : ℚ) ^ (k - 54) := by
      have : k - 53 = (k - 54) + 1 := by ring
      rw [this, zpow_add₀ (by norm_num), zpow_one]; ring
    have hval : |(m : ℚ) * (2 : ℚ) ^ e - (n : ℚ) / d| ≤ (2 : ℚ) ^ (k - 54) := by
      have h1 : (m : ℚ) * (2 : ℚ) ^ e - (n : ℚ) / d =
          ((m : ℚ) - (n : ℚ) / d / (2 : ℚ) ^ e) * (2 : ℚ) ^ e := by
        field_simp
        ring
      rw [h1, abs_mul, abs_of_pos hP]
      calc |(m : ℚ) - (n : ℚ) / d / (2 : ℚ) ^ e| * (2 : ℚ) ^ e
          ≤ 1 / 2 * (2 : ℚ) ^ e := by
            exact mul_le_mul_of_nonneg_right herr hP.le
        _ ≤ 1 / 2 * (2 : ℚ) ^ (k - 53) := by linarith
        _ = (2 : ℚ) ^ (k - 54) := by rw [hhalf]; ring
    unfold F64.round
    simp only [hn0, if_false]
    rw [← hedef, ← hmdef]
    by_cases hcarry : m = 2 ^ 53
    · simp only [hcarry, if_true]
      have hfin : ¬ (971 < e + 1) := by omega
      simp only [hfin, if_false, F64.isFinite, toRat_fin, true_and]
      rw [← mul_sub, abs_sgn_mul]
      have h2 : ((2 ^ 52 : Nat) : ℚ) * (2 : ℚ) ^ (e + 1) = (m : ℚ) * (2 : ℚ) ^ e := by
        rw [hcarry, zpow_add₀ (by norm_num), zpow_one]
        push_cast
        ring
      rw [h2]
      exact hval
    · simp only [hcarry, if_false]
      have hfin : ¬ (971 < e) := by omega
      simp only [hfin, if_false, F64.isFinite, toRat_fin, true_and]
      rw [← mul_sub, abs_sgn_mul]
      exact hval

theorem roundDyadic_close (neg : Bool) (m : Nat) (e k : Int) (hk : -1021 ≤ k)
    (hk2 : k ≤ 1023) (hv : (m : ℚ) * (2 : ℚ) ^ e < (2 : ℚ) ^ k) :
    (F64.roundDyadic neg m e).isFinite = true ∧
      |(F64.roundDyadic neg m e).toRat - sgn neg * ((m : ℚ) * (2 : ℚ) ^ e)| ≤
        (2 : ℚ) ^ (k - 54) := by
  unfold F64.roundDyadic
  by_cases he : 0 ≤ e
  · simp only [he, if_true]
    have hval : (((m * 2 ^ e.toNat : Nat) : ℚ)) / ((1 : Nat) : ℚ) = (m : ℚ) * (2 : ℚ) ^ e := by
      have : ((2 : ℚ) ^ e) = (2 : ℚ) ^ e.toNat := by
        rw [← zpow_natCast, Int.toNat_of_nonneg he]
      rw [this]; push_cast; ring
    have h := round_close neg (m * 2 ^ e.toNat) 1 k Nat.one_pos hk hk2 (by rw [hval]; exact hv)
    rw [hval] at h
    exact h
  · simp only [he, if_false]
    have hneg : 0 ≤ -e := by omega
    have hval : ((m : ℚ)) / (((2 ^ (-e).toNat : Nat)) : ℚ) = (m : ℚ) * (2 : ℚ) ^ e := by
      have : ((2 : ℚ) ^ e) = ((2 : ℚ) ^ (-e).toNat)⁻¹ := by
        rw [← zpow_natCast, Int.toNat_of_nonneg hneg, zpow_neg, inv_inv]
      rw [this]; push_cast; ring
    have h := round_close neg m (2 ^ (-e).toNat) k (by positivity) hk hk2
      (by rw [hval]; exact hv)
    rw [hval] at h
    exact h

/-- Rounding always lands on a `float64` value. -/
theorem round_wf (neg : Bool) (n d : Nat) (hd : 0 < d) : (F64.round neg n d).wf := by
  by_cases hn0 : n = 0
  · subst hn0
    simp only [F64.round, if_true, F64.wf]
    norm_num
  · have hn : 0 < n := Nat.pos_of_ne_zero hn0
    obtain ⟨helo, hehi, henorm⟩ := exponentOf_spec n d hn hd
    set e : Int := exponentOf n d with hedef
    obtain ⟨hD, hND⟩ := scaled_spec n d e hd
    have hDq : (0 : ℚ) < ((scaled n d e).2 : ℚ) := by exact_mod_cast hD
    rw [← hND] at hehi henorm
    have hlt : (scaled n d e).1 < 2 ^ 53 * (scaled n d e).2 := by
      have := (div_lt_iff₀ hDq).mp hehi
      exact_mod_cast this
    have hle := halfEven_le (scaled n d e).1 (scaled n d e).2 (2 ^ 53) hD hlt
    have hge := le_halfEven (scaled n d e).1 (scaled n d e).2
    set m : Nat := halfEven (scaled n d e).1 (scaled n d e).2 with hmdef
    unfold F64.round
    simp only [hn0, if_false]
    rw [← hedef, ← hmdef]
    by_cases hcarry : m = 2 ^ 53
    · simp only [hcarry, if_true]
      by_cases hover : 971 < e + 1
      · simp only [hover, if_true, F64.wf]
      · simp only [hover, if_false, F64.wf]
        refine ⟨by norm_num, by omega, by omega, Or.inl le_rfl⟩
    · simp only [hcarry, if_false]
      by_cases hover : 971 < e
      · simp only [hover, if_true, F64.wf]
      · simp only [hover, if_false, F64.wf]
        refine ⟨by omega, helo, by omega, ?_⟩
        rcases henorm with h | h
        · exact Or.inr h
        · left
          have h1 := (le_div_iff₀ hDq).mp h
          have h2 : 2 ^ 52 * (scaled n d e).2 ≤ (scaled n d e).1 := by exact_mod_cast h1
          have h3 : 2 ^ 52 ≤ (scaled n d e).1 / (scaled n d e).2 :=
            (Nat.le_div_iff_mul_le hD).mpr h2
          exact le_trans h3 hge

theorem roundDyadic_wf (neg : Bool) (m : Nat) (e : Int) : (F64.roundDyadic neg m e).wf := by
  unfold F64.roundDyadic
  split
  · exact round_wf neg _ 1 Nat.one_pos
  · exact round_wf neg m _ (by positivity)

/-- The sum of two `float64` values is a `float64` value. -/
theorem add_wf (a b : F64) : (F64.add a b).wf := by
  cases a with
  | nan => cases b <;> trivial
  | inf s =>
    cases b with
    | nan => trivial
    | inf s2 => simp only [F64.add]; split <;> trivial
    | fin s2 m2 e2 => trivial
  | fin s1 m1 e1 =>
    cases b with
    | nan => trivial
    | inf s2 => trivial
    | fin s2 m2 e2 =>
      simp only [F64.add]
      split
      · simp only [F64.wf]; norm_num
      · exact roundDyadic_wf _ _ _

/-- The product of two `float64` values is a `float64` value. -/
theorem mul_wf (a b : F64) : (F64.mul a b).wf := by
  cases a with
  | nan => cases b <;> trivial
  | inf s =>
    cases b with
    | nan => trivial
    | inf s2 => trivial
    | fin s2 m2 e2 => simp only [F64.mul]; split <;> trivial
  | fin s1 m1 e1 =>
    cases b with
    | nan => trivial
    | inf s2 => simp only [F64.mul]; split <;> trivial
    | fin s2 m2 e2 => exact roundDyadic_wf _ _ _

/-- The quotient of two `float64` values is a `float64` value. -/
theorem div_wf (a b : F64) : (F64.div a b).wf := by
  cases a with
  | nan => cases b <;> trivial
  | inf s => cases b <;> trivial
  | fin s1 m1 e1 =>
    cases b with
    | nan => trivial
    | inf s2 => simp only [F64.div, F64.wf]; norm_num
    | fin s2 m2 e2 =>
      simp only [F64.div]
      by_cases hm2 : m2 = 0
      · simp only [hm2, if_true]; split <;> trivial
      · simp only [hm2, if_false]
        have hpos : 0 < m2 := Nat.pos_of_ne_zero hm2
        split
        · exact round_wf _ _ m2 hpos
        · exact round_wf _ m1 _ (by positivity)

/-- On the reading `25.5` of the tests the fused and the unfused evaluation of
`tempC*1.8 + 32` give the same `float64`, the one of `77.9`. -/
theorem fused_at_25_5 :
    F64.fma (F64.ofRatio 255 10) const1_8 const32 =
        F64.add (F64.mul (F64.ofRatio 255 10) const1_8) const32 ∧
      F64.fma (F64.ofRatio 255 10) const1_8 const32 = F64.ofRatio 779 10 := by
  decide

theorem sgn_xor (a b : Bool) : sgn (xor a b) = sgn a * sgn b := by
  cases a <;> cases b <;> simp [sgn]

theorem signed_cast (neg : Bool) (m : Nat) : ((signed neg m : Int) : ℚ) = sgn neg * (m : ℚ) := by
  cases neg <;> simp [signed, sgn]

theorem natAbs_cast (z : Int) : ((z.natAbs : Nat) : ℚ) = |(z : ℚ)| := by
  rw [Nat.cast_natAbs, Int.cast_abs]

theorem sgn_natAbs (z : Int) : sgn (decide (z < 0)) * ((z.natAbs : Nat) : ℚ) = (z : ℚ) := by
  rw [natAbs_cast]
  by_cases h : z < 0
  · have hq : (z : ℚ) < 0 := by exact_mod_cast h
    simp only [h, decide_True, sgn, if_true]
    rw [abs_of_neg hq]; ring
  · have hq : (0 : ℚ) ≤ (z : ℚ) := by exact_mod_cast (not_lt.mp h)
    simp only [h, decide_False, sgn, Bool.false_eq_true, if_false]
    rw [abs_of_nonneg hq]; ring

theorem pow_toNat_mul (a b : Int) (h : b ≤ a) :
    (((2 ^ (a - b).toNat : Nat)) : ℚ) * (2 : ℚ) ^ b = (2 : ℚ) ^ a := by
  have h0 : 0 ≤ a - b := by omega
  push_cast
  rw [← zpow_natCast, Int.toNat_of_nonneg h0, ← zpow_add₀ (by norm_num)]
  congr 1
  ring

/-- The sum of two finite values of magnitude below `2^k` is finite and
within `2^(k-54)` of the exact sum. -/
theorem add_close (a b : F64) (k : Int) (ha : a.isFinite = true) (hb : b.isFinite = true)
    (hk : -1021 ≤ k) (hk2 : k ≤ 1023) (hv : |a.toRat + b.toRat| < (2 : ℚ) ^ k) :
    (F64.add a b).isFinite = true ∧
      |(F64.add a b).toRat - (a.toRat + b.toRat)| ≤ (2 : ℚ) ^ (k - 54) := by
  have hpos : (0 : ℚ) < (2 : ℚ) ^ (k - 54) := by positivity
  cases a with
  | nan => simp [F64.isFinite] at ha
  | inf s => simp [F64.isFinite] at ha
  | fin s1 m1 e1 =>
    cases b with
    | nan => simp [F64.isFinite] at hb
    | inf s => simp [F64.isFinite] at hb
    | fin s2 m2 e2 =>
      simp only [toRat_fin] at hv ⊢
      simp only [F64.add]
      set E : Int := min e1 e2 with hE
      set z : Int := signed s1 (m1 * 2 ^ (e1 - E).toNat) + signed s2 (m2 * 2 ^ (e2 - E).toNat)
        with hz
      have hsum : (z : ℚ) * (2 : ℚ) ^ E =
          sgn s1 * ((m1 : ℚ) * (2 : ℚ) ^ e1) + sgn s2 * ((m2 : ℚ) * (2 : ℚ) ^ e2) := by
        rw [hz, Int.cast_add, signed_cast, signed_cast, Nat.cast_mul, Nat.cast_mul,
          ← pow_toNat_mul e1 E (min_le_left _ _), ← pow_toNat_mul e2 E (min_le_right _ _)]
        ring
      rw [← hsum] at hv ⊢
      by_cases hz0 : z = 0
      · simp only [hz0, if_true, F64.isFinite, toRat_fin]
        simp only [Nat.cast_zero, zero_mul, mul_zero, Int.cast_zero, sub_zero, abs_zero]
        exact ⟨trivial, hpos.le⟩
      · simp only [hz0, if_false]
        have hval : ((z.natAbs : Nat) : ℚ) * (2 : ℚ) ^ E < (2 : ℚ) ^ k := by
          rw [natAbs_cast]
          have hP : (0 : ℚ) < (2 : ℚ) ^ E := by positivity
          rw [abs_mul, abs_of_pos hP] at hv
          exact hv
        have h := roundDyadic_close (decide (z < 0)) z.natAbs E k hk hk2 hval
        rw [← mul_assoc, sgn_natAbs] at h
        exact h

/-- The product of two finite values, of magnitude below `2^k`, is finite and
within `2^(k-54)` of the exact product. -/
theorem mul_close (a b : F64) (k : Int) (ha : a.isFinite = true) (hb : b.isFinite = true)
    (hk : -1021 ≤ k) (hk2 : k ≤ 1023) (hv : |a.toRat * b.toRat| < (2 : ℚ) ^ k) :
    (F64.mul a b).isFinite = true ∧
      |(F64.mul a b).toRat - a.toRat * b.toRat| ≤ (2 : ℚ) ^ (k - 54) := by
  cases a with
  | nan => simp [F64.isFinite] at ha
  | inf s => simp [F64.isFinite] at ha
  | fin s1 m1 e1 =>
    cases b with
    | nan => simp [F64.isFinite] at hb
    | inf s => simp [F64.isFinite] at hb
    | fin s2 m2 e2 =>
      simp only [toRat_fin] at hv ⊢
      simp only [F64.mul]
      have hprod : sgn s1 * ((m1 : ℚ) * (2 : ℚ) ^ e1) * (sgn s2 * ((m2 : ℚ) * (2 : ℚ) ^ e2)) =
          sgn (xor s1 s2) * (((m1 * m2 : Nat) : ℚ) * (2 : ℚ) ^ (e1 + e2)) := by
        rw [sgn_xor, zpow_add₀ (by norm_num)]
        push_cast
        ring
      rw [hprod] at hv ⊢
      rw [abs_sgn_mul] at hv
      have hnn : (0 : ℚ) ≤ ((m1 * m2 : Nat) : ℚ) * (2 : ℚ) ^ (e1 + e2) := by positivity
      rw [abs_of_nonneg hnn] at hv
      exact roundDyadic_close (xor s1 s2) (m1 * m2) (e1 + e2) k hk hk2 hv

theorem toRat_neg (a : F64) : (F64.neg a).toRat = -a.toRat := by
  cases a with
  | nan => simp [F64.neg, F64.toRat]
  | inf s => simp [F64.neg, F64.toRat]
  | fin s m e => cases s <;> simp [F64.neg, F64.toRat]

theorem isFinite_neg (a : F64) : (F64.neg a).isFinite = a.isFinite := by
  cases a <;> rfl

/-- The difference of two finite values, of magnitude below `2^k`, is finite
and within `2^(k-54)` of the exact difference. -/
theorem sub_close (a b : F64) (k : Int) (ha : a.isFinite = true) (hb : b.isFinite = true)
    (hk : -1021 ≤ k) (hk2 : k ≤ 1023) (hv : |a.toRat - b.toRat| < (2 : ℚ) ^ k) :
    (F64.sub a b).isFinite = true ∧
      |(F64.sub a b).toRat - (a.toRat - b.toRat)| ≤ (2 : ℚ) ^ (k - 54) := by
  have h := add_close a (F64.neg b) k ha (by rw [isFinite_neg]; exact hb) hk hk2
    (by rw [toRat_neg, ← sub_eq_add_neg]; exact hv)
  rw [toRat_neg, ← sub_eq_add_neg] at h
  exact h

/-- The quotient of a finite value by a finite value other than zero, of
magnitude below `2^k`, is finite and within `2^(k-54)` of the exact quotient. -/
theorem div_close (a b : F64) (k : Int) (ha : a.isFinite = true) (hb : b.isFinite = true)
    (hb0 : b.toRat ≠ 0) (hk : -1021 ≤ k) (hk2 : k ≤ 1023)
    (hv : |a.toRat / b.toRat| < (2 : ℚ) ^ k) :
    (F64.div a b).isFinite = true ∧
      |(F64.div a b).toRat - a.toRat / b.toRat| ≤ (2 : ℚ) ^ (k - 54) := by
  cases a with
  | nan => simp [F64.isFinite] at ha
  | inf s => simp [F64.isFinite] at ha
  | fin s1 m1 e1 =>
    cases b with
    | nan => simp [F64.isFinite] at hb
    | inf s => simp [F64.isFinite] at hb
    | fin s2 m2 e2 =>
      simp only [toRat_fin] at hv hb0 ⊢
      have hm2 : m2 ≠ 0 := by
        rintro rfl
        simp at hb0
      have hm2q : (m2 : ℚ) ≠ 0 := by exact_mod_cast hm2
      have hs2 : sgn s2 ≠ 0 := by cases s2 <;> simp [sgn]
      have hP2 : (2 : ℚ) ^ e2 ≠ 0 := by positivity
      simp only [F64.div, hm2, if_false]
      have hquot : ∀ q : ℚ, q = (m1 : ℚ) * (2 : ℚ) ^ e1 / ((m2 : ℚ) * (2 : ℚ) ^ e2) →
          sgn s1 * ((m1 : ℚ) * (2 : ℚ) ^ e1) / (sgn s2 * ((m2 : ℚ) * (2 : ℚ) ^ e2)) =
            sgn (xor s1 s2) * q := by
        intro q hq
        rw [hq, sgn_xor]
        cases s1 <;> cases s2 <;> simp [sgn] <;> field_simp
      by_cases he : e2 ≤ e1
      · simp only [he, if_true]
        have hq : ((m1 * 2 ^ (e1 - e2).toNat : Nat) : ℚ) / (m2 : ℚ) =
            (m1 : ℚ) * (2 : ℚ) ^ e1 / ((m2 : ℚ) * (2 : ℚ) ^ e2) := by
          rw [← pow_toNat_mul e1 e2 he]
          push_cast
          field_simp
          ring
        rw [hquot _ hq] at hv ⊢
        rw [abs_sgn_mul] at hv
        have hnn : (0 : ℚ) ≤ ((m1 * 2 ^ (e1 - e2).toNat : Nat) : ℚ) / (m2 : ℚ) := by positivity
        rw [abs_of_nonneg hnn] at hv
        exact round_close (xor s1 s2) _ m2 k (Nat.pos_of_ne_zero hm2) hk hk2 hv
      · simp only [he, if_false]
        have he' : e1 ≤ e2 := by omega
        have hq : (m1 : ℚ) / ((m2 * 2 ^ (e2 - e1).toNat : Nat) : ℚ) =
            (m1 : ℚ) * (2 : ℚ) ^ e1 / ((m2 : ℚ) * (2 : ℚ) ^ e2) := by
          rw [← pow_toNat_mul e2 e1 he']
          push_cast
          field_simp
          ring
        rw [hquot _ hq] at hv ⊢
        rw [abs_sgn_mul] at hv
        have hnn : (0 : ℚ) ≤ (m1 : ℚ) / ((m2 * 2 ^ (e2 - e1).toNat : Nat) : ℚ) := by positivity
        rw [abs_of_nonneg hnn] at hv
        exact round_close (xor s1 s2) m1 _ k (by positivity) hk hk2 hv

theorem const1_8_eq : const1_8 = .fin false 8106479329266893 (-52) := by decide

theorem const32_eq : const32 = .fin false 4503599627370496 (-47) := by decide

theorem const273_15_eq : const273_15 = .fin false 4805305618032230 (-44) := by decide

theorem const1_8_toRat : const1_8.toRat = 8106479329266893 / 4503599627370496 := by
  rw [const1_8_eq, toRat_fin]
  norm_num [sgn]

theorem const32_toRat : const32.toRat = 32 := by
  rw [const32_eq, toRat_fin]
  norm_num [sgn]

theorem const273_15_toRat : const273_15.toRat = 4805305618032230 / 17592186044416 := by
  rw [const273_15_eq, toRat_fin]
  norm_num [sgn]

theorem zpow_scale (a : Int) (j : Nat) : (2 : ℚ) ^ (a + (j : Int)) = (2 : ℚ) ^ a * (2 : ℚ) ^ j := by
  rw [zpow_add₀ (by norm_num), zpow_natCast]

/-! ## The top of the range -/

/-- Whatever the magnitude: a rounding that stays finite is within `2^970`
(half the largest step of the grid) of the exact value, and it stays finite
when the exact value is below `2^1024 - 2^970`. -/
theorem round_top (neg : Bool) (n d : Nat) (hd : 0 < d) :
    ((F64.round neg n d).isFinite = true →
        |(F64.round neg n d).toRat - sgn neg * ((n : ℚ) / (d : ℚ))| ≤ (2 : ℚ) ^ 970) ∧
      ((n : ℚ) / (d : ℚ) < (2 : ℚ) ^ 1024 - (2 : ℚ) ^ 970 →
        (F64.round neg n d).isFinite = true) := by
  have hpos : (0 : ℚ) < (2 : ℚ) ^ 970 := by positivity
  by_cases hn0 : n = 0
  · subst hn0
    simp only [F64.round, if_true, F64.isFinite, toRat_fin]
    simp only [Nat.cast_zero, zero_mul, zero_div, mul_zero, sub_zero, abs_zero]
    exact ⟨fun _ => hpos.le, fun _ => trivial⟩
  · have hn : 0 < n := Nat.pos_of_ne_zero hn0
    obtain ⟨helo, hehi, henorm⟩ := exponentOf_spec n d hn hd
    set e : Int := exponentOf n d with hedef
    obtain ⟨hD, hND⟩ := scaled_spec n d e hd
    have hP : (0 : ℚ) < (2 : ℚ) ^ e := by positivity
    have herr := halfEven_spec (scaled n d e).1 (scaled n d e).2 hD
    rw [hND] at herr
    set m : Nat := halfEven (scaled n d e).1 (scaled n d e).2 with hmdef
    obtain ⟨herr1, herr2⟩ := abs_le.mp herr
    -- the error in terms of the step
    have hval : |(m : ℚ) * (2 : ℚ) ^ e - (n : ℚ) / d| ≤ 1 / 2 * (2 : ℚ) ^ e := by
      have h1 : (m : ℚ) * (2 : ℚ) ^ e - (n : ℚ) / d =
          ((m : ℚ) - (n : ℚ) / d / (2 : ℚ) ^ e) * (2 : ℚ) ^ e := by
        field_simp
        ring
      rw [h1, abs_mul, abs_of_pos hP]
      exact mul_le_mul_of_nonneg_right herr hP.le
    have hstep : ∀ b : Int, e ≤ b → (2 : ℚ) ^ e ≤ (2 : ℚ) ^ b := fun b hb =>
      zpow_le_zpow_right₀ (by norm_num) hb
    have hstep2 : ∀ b : Int, b ≤ e → (2 : ℚ) ^ b ≤ (2 : ℚ) ^ e := fun b hb =>
      zpow_le_zpow_right₀ (by norm_num) hb
    have p971 : (2 : ℚ) ^ (971 : Int) = 2 * (2 : ℚ) ^ 970 := by norm_num
    have p972 : (2 : ℚ) ^ (972 : Int) = 4 * (2 : ℚ) ^ 970 := by norm_num
    have p1024 : (2 : ℚ) ^ 1024 = 2 ^ 54 * (2 : ℚ) ^ 970 := by norm_num
    -- the exact value, from the scaled one
    have hvdiv : (n : ℚ) / d = (n : ℚ) / d / (2 : ℚ) ^ e * (2 : ℚ) ^ e := by
      field_simp
      ring
    unfold F64.round
    simp only [hn0, if_false]
    rw [← hedef, ← hmdef]
    by_cases hcarry : m = 2 ^ 53
    · simp only [hcarry, if_true]
      have h2 : ((2 ^ 52 : Nat) : ℚ) * (2 : ℚ) ^ (e + 1) = (m : ℚ) * (2 : ℚ) ^ e := by
        rw [hcarry, zpow_add₀ (by norm_num), zpow_one]
        push_cast
        ring
      have hm53 : (m : ℚ) = 2 ^ 53 := by rw [hcarry]; push_cast; rfl
      by_cases hover : 971 < e + 1
      · simp only [hover, if_true, F64.isFinite, Bool.false_eq_true, false_implies, true_and]
        intro hv
        exfalso
        have h971 := hstep2 971 (by omega)
        rw [p971] at h971
        rw [hm53] at herr2
        have hlow : ((2 : ℚ) ^ 53 - 1 / 2) * (2 : ℚ) ^ e ≤ (n : ℚ) / d := by
          rw [hvdiv]
          exact mul_le_mul_of_nonneg_right (by linarith) hP.le
        rw [p1024] at hv
        nlinarith
      · simp only [hover, if_false, F64.isFinite, toRat_fin, implies_true, and_true,
          true_implies]
        rw [← mul_sub, abs_sgn_mul, h2]
        have h971 := hstep 971 (by omega)
        rw [p971] at h971
        linarith
    · simp only [hcarry, if_false]
      by_cases hover : 971 < e
      · simp only [hover, if_true, F64.isFinite, Bool.false_eq_true, false_implies, true_and]
        intro hv
        exfalso
        have h972 := hstep2 972 (by omega)
        rw [p972] at h972
        rcases henorm with h | h
        · omega
        · have hlow : (2 : ℚ) ^ 52 * (2 : ℚ) ^ e ≤ (n : ℚ) / d := by
            rw [hvdiv]
            exact mul_le_mul_of_nonneg_right h hP.le
          rw [p1024] at hv
          nlinarith
      · simp only [hover, if_false, F64.isFinite, toRat_fin, implies_true, and_true,
          true_implies]
        rw [← mul_sub, abs_sgn_mul]
        have h971 := hstep 971 (by omega)
        rw [p971] at h971
        linarith

theorem roundDyadic_top (neg : Bool) (m : Nat) (e : Int) :
    ((F64.roundDyadic neg m e).isFinite = true →
        |(F64.roundDyadic neg m e).toRat - sgn neg * ((m : ℚ) * (2 : ℚ) ^ e)| ≤
          (2 : ℚ) ^ 970) ∧
      ((m : ℚ) * (2 : ℚ) ^ e < (2 : ℚ) ^ 1024 - (2 : ℚ) ^ 970 →
        (F64.roundDyadic neg m e).isFinite = true) := by
  unfold F64.roundDyadic
  by_cases he : 0 ≤ e
  · simp only [he, if_true]
    have hval : (((m * 2 ^ e.toNat : Nat) : ℚ)) / ((1 : Nat) : ℚ) = (m : ℚ) * (2 : ℚ) ^ e := by
      have : ((2 : ℚ) ^ e) = (2 : ℚ) ^ e.toNat := by
        rw [← zpow_natCast, Int.toNat_of_nonneg he]
      rw [this]; push_cast; ring
    have h := round_top neg (m * 2 ^ e.toNat) 1 Nat.one_pos
    rw [hval] at h
    exact h
  · simp only [he, if_false]
    have hneg : 0 ≤ -e := by omega
    have hval : ((m : ℚ)) / (((2 ^ (-e).toNat : Nat)) : ℚ) = (m : ℚ) * (2 : ℚ) ^ e := by
      have : ((2 : ℚ) ^ e) = ((2 : ℚ) ^ (-e).toNat)⁻¹ := by
        rw [← zpow_natCast, Int.toNat_of_nonneg hneg, zpow_neg, inv_inv]
      rw [this]; push_cast; ring
    have h := round_top neg m (2 ^ (-e).toNat) (by positivity)
    rw [hval] at h
    exact h

theorem roundDyadic_zero (neg : Bool) (e : Int) :
    F64.roundDyadic neg 0 e = .fin neg 0 (-1074) := by
  unfold F64.roundDyadic
  split <;> simp [F64.round]

/-- The sum of two finite values is the rounding of their exact sum. -/
theorem add_rounds (a b : F64) (ha : a.isFinite = true) (hb : b.isFinite = true) :
    ∃ neg m e, F64.add a b = F64.roundDyadic neg m e ∧
      sgn neg * ((m : ℚ) * (2 : ℚ) ^ e) = a.toRat + b.toRat := by
  cases a with
  | nan => simp [F64.isFinite] at ha
  | inf s => simp [F64.isFinite] at ha
  | fin s1 m1 e1 =>
    cases b with
    | nan => simp [F64.isFinite] at hb
    | inf s => simp [F64.isFinite] at hb
    | fin s2 m2 e2 =>
      simp only [toRat_fin, F64.add]
      set E : Int := min e1 e2 with hE
      set z : Int := signed s1 (m1 * 2 ^ (e1 - E).toNat) + signed s2 (m2 * 2 ^ (e2 - E).toNat)
        with hz
      have hsum : (z : ℚ) * (2 : ℚ) ^ E =
          sgn s1 * ((m1 : ℚ) * (2 : ℚ) ^ e1) + sgn s2 * ((m2 : ℚ) * (2 : ℚ) ^ e2) := by
        rw [hz, Int.cast_add, signed_cast, signed_cast, Nat.cast_mul, Nat.cast_mul,
          ← pow_toNat_mul e1 E (min_le_left _ _), ← pow_toNat_mul e2 E (min_le_right _ _)]
        ring
      rw [← hsum]
      by_cases hz0 : z = 0
      · refine ⟨s1 && s2, 0, E, ?_, ?_⟩
        · simp only [hz0, if_true, roundDyadic_zero]
        · rw [hz0]; simp
      · refine ⟨decide (z < 0), z.natAbs, E, ?_, ?_⟩
        · simp only [hz0, if_false]
        · rw [← mul_assoc, sgn_natAbs]

/-- The product of two finite values is the rounding of their exact product. -/
theorem mul_rounds (a b : F64) (ha : a.isFinite = true) (hb : b.isFinite = true) :
    ∃ neg m e, F64.mul a b = F64.roundDyadic neg m e ∧
      sgn neg * ((m : ℚ) * (2 : ℚ) ^ e) = a.toRat * b.toRat := by
  cases a with
  | nan => simp [F64.isFinite] at ha
  | inf s => simp [F64.isFinite] at ha
  | fin s1 m1 e1 =>
    cases b with
    | nan => simp [F64.isFinite] at hb
    | inf s => simp [F64.isFinite] at hb
    | fin s2 m2 e2 =>
      refine ⟨xor s1 s2, m1 * m2, e1 + e2, rfl, ?_⟩
      simp only [toRat_fin]
      rw [sgn_xor, zpow_add₀ (by norm_num)]
      push_cast
      ring

/-- The fused multiply-add of three finite values is the rounding of the exact
`a * b + c`. -/
theorem fma_rounds (a b c : F64) (ha : a.isFinite = true) (hb : b.isFinite = true)
    (hc : c.isFinite = true) :
    ∃ neg m e, F64.fma a b c = F64.roundDyadic neg m e ∧
      sgn neg * ((m : ℚ) * (2 : ℚ) ^ e) = a.toRat * b.toRat + c.toRat := by
  cases a with
  | nan => simp [F64.isFinite] at ha
  | inf s => simp [F64.isFinite] at ha
  | fin s1 m1 e1 =>
    cases b with
    | nan => simp [F64.isFinite] at hb
    | inf s => simp [F64.isFinite] at hb
    | fin s2 m2 e2 =>
      cases c with
      | nan => simp [F64.isFinite] at hc
      | inf s => simp [F64.isFinite] at hc
      | fin s3 m3 e3 =>
        simp only [toRat_fin, F64.fma]
        set E : Int := min (e1 + e2) e3 with hE
        set z : Int := signed (xor s1 s2) (m1 * m2 * 2 ^ (e1 + e2 - E).toNat) +
          signed s3 (m3 * 2 ^ (e3 - E).toNat) with hz
        have hsum : (z : ℚ) * (2 : ℚ) ^ E =
            sgn s1 * ((m1 : ℚ) * (2 : ℚ) ^ e1) * (sgn s2 * ((m2 : ℚ) * (2 : ℚ) ^ e2)) +
              sgn s3 * ((m3 : ℚ) * (2 : ℚ) ^ e3) := by
          rw [hz, Int.cast_add, signed_cast, signed_cast, Nat.cast_mul, Nat.cast_mul,
            Nat.cast_mul, sgn_xor, ← pow_toNat_mul e3 E (min_le_right _ _)]
          have h12 : (2 : ℚ) ^ e1 * (2 : ℚ) ^ e2 =
              (((2 ^ (e1 + e2 - E).toNat : Nat)) : ℚ) * (2 : ℚ) ^ E := by
            rw [pow_toNat_mul (e1 + e2) E (min_le_left _ _), zpow_add₀ (by norm_num)]
          have h12' : sgn s1 * ((m1 : ℚ) * (2 : ℚ) ^ e1) * (sgn s2 * ((m2 : ℚ) * (2 : ℚ) ^ e2)) =
              sgn s1 * sgn s2 * ((m1 : ℚ) * (m2 : ℚ)) * ((2 : ℚ) ^ e1 * (2 : ℚ) ^ e2) := by
            ring
          rw [h12', h12]
          ring
        rw [← hsum]
        by_cases hz0 : z = 0
        · refine ⟨xor s1 s2 && s3, 0, E, ?_, ?_⟩
          · simp only [hz0, if_true, roundDyadic_zero]
          · rw [hz0]; simp
        · refine ⟨decide (z < 0), z.natAbs, E, ?_, ?_⟩
          · simp only [hz0, if_false]
          · rw [← mul_assoc, sgn_natAbs]

/-- A rounding of the exact value `x` of magnitude below `2^k`, for `k` in the
normal range, is finite and within `2^(k-54)` of `x`. -/
theorem rounds_close (r : F64) (x : ℚ) (k : Int)
    (h : ∃ neg m e, r = F64.roundDyadic neg m e ∧ sgn neg * ((m : ℚ) * (2 : ℚ) ^ e) = x)
    (hk : -1021 ≤ k) (hk2 : k ≤ 1023) (hx : |x| < (2 : ℚ) ^ k) :
    r.isFinite = true ∧ |r.toRat - x| ≤ (2 : ℚ) ^ (k - 54) := by
  obtain ⟨neg, m, e, hr, hval⟩ := h
  have hnn : (0 : ℚ) ≤ (m : ℚ) * (2 : ℚ) ^ e := by positivity
  rw [← hval, abs_sgn_mul, abs_of_nonneg hnn] at hx
  rw [hr, ← hval]
  exact roundDyadic_close neg m e k hk hk2 hx

/-- A rounding of the exact value `x` that stays finite is within `2^970` of
`x`, and it stays finite when `|x| < 2^1024 - 2^970`. -/
theorem rounds_top (r : F64) (x : ℚ)
    (h : ∃ neg m e, r = F64.roundDyadic neg m e ∧ sgn neg * ((m : ℚ) * (2 : ℚ) ^ e) = x) :
    (r.isFinite = true → |r.toRat - x| ≤ (2 : ℚ) ^ 970) ∧
      (|x| < (2 : ℚ) ^ 1024 - (2 : ℚ) ^ 970 → r.isFinite = true) := by
  obtain ⟨neg, m, e, hr, hval⟩ := h
  have hnn : (0 : ℚ) ≤ (m : ℚ) * (2 : ℚ) ^ e := by positivity
  rw [hr, ← hval, abs_sgn_mul, abs_of_nonneg hnn]
  exact roundDyadic_top neg m e

theorem fma_wf (a b c : F64) : (F64.fma a b c).wf := by
  cases a with
  | nan => exact add_wf _ _
  | inf s => exact add_wf _ _
  | fin s1 m1 e1 =>
    cases b with
    | nan => exact add_wf _ _
    | inf s => exact add_wf _ _
    | fin s2 m2 e2 =>
      cases c with
      | nan => trivial
      | inf s => trivial
      | fin s3 m3 e3 =>
        simp only [F64.fma]
        split
        · simp only [F64.wf]; norm_num
        · exact roundDyadic_wf _ _ _

theorem mulAdd_wf (fused : Bool) (a b c : F64) : (F64.mulAdd fused a b c).wf := by
  cases fused
  · exact add_wf _ _
  · exact fma_wf _ _ _

/-- A finite `float64` value is at most `2^1024 - 2^971` in magnitude. -/
theorem wf_bound (t : F64) (hwf : t.wf) : |t.toRat| ≤ (2 : ℚ) ^ 1024 - (2 : ℚ) ^ 971 := by
  cases t with
  | nan => simp only [F64.toRat, abs_zero]; norm_num
  | inf s => simp only [F64.toRat, abs_zero]; norm_num
  | fin s m e =>
    obtain ⟨hm, _, he, _⟩ := hwf
    rw [toRat_fin, abs_sgn_mul]
    have hnn : (0 : ℚ) ≤ (m : ℚ) * (2 : ℚ) ^ e := by positivity
    rw [abs_of_nonneg hnn]
    have hmq : (m : ℚ) ≤ 2 ^ 53 - 1 := by
      have : m ≤ 2 ^ 53 - 1 := by omega
      have h2 : (m : ℚ) ≤ ((2 ^ 53 - 1 : Nat) : ℚ) := by exact_mod_cast this
      calc (m : ℚ) ≤ ((2 ^ 53 - 1 : Nat) : ℚ) := h2
        _ = 2 ^ 53 - 1 := by norm_num
    have hpe : (2 : ℚ) ^ e ≤ (2 : ℚ) ^ (971 : Int) := zpow_le_zpow_right₀ (by norm_num) he
    have hP : (0 : ℚ) < (2 : ℚ) ^ e := by positivity
    calc (m : ℚ) * (2 : ℚ) ^ e ≤ (2 ^ 53 - 1) * (2 : ℚ) ^ (971 : Int) :=
          mul_le_mul hmq hpe hP.le (by norm_num)
      _ = (2 : ℚ) ^ 1024 - (2 : ℚ) ^ 971 := by norm_num

theorem isFinite_of_add (a b : F64) (h : (F64.add a b).isFinite = true) :
    a.isFinite = true ∧ b.isFinite = true := by
  cases a with
  | nan => simp [F64.add, F64.isFinite] at h
  | inf s =>
    cases b with
    | nan => simp [F64.add, F64.isFinite] at h
    | inf s2 =>
      simp only [F64.add] at h
      split at h <;> simp [F64.isFinite] at h
    | fin s2 m2 e2 => simp [F64.add, F64.isFinite] at h
  | fin s1 m1 e1 =>
    cases b with
    | nan => simp [F64.add, F64.isFinite] at h
    | inf s2 => simp [F64.add, F64.isFinite] at h
    | fin s2 m2 e2 => exact ⟨rfl, rfl⟩

theorem sub_rounds (a b : F64) (ha : a.isFinite = true) (hb : b.isFinite = true) :
    ∃ neg m e, F64.sub a b = F64.roundDyadic neg m e ∧
      sgn neg * ((m : ℚ) * (2 : ℚ) ^ e) = a.toRat - b.toRat := by
  have h := add_rounds a (F64.neg b) ha (by rw [isFinite_neg]; exact hb)
  rw [toRat_neg, ← sub_eq_add_neg] at h
  exact h

/-- The quotient of a finite value by a finite value other than zero: when it
is finite it is within `2^970` of the exact quotient, and it is finite when
the exact quotient is below `2^1024 - 2^970` in magnitude. -/
theorem div_top (a b : F64) (ha : a.isFinite = true) (hb : b.isFinite = true)
    (hb0 : b.toRat ≠ 0) :
    ((F64.div a b).isFinite = true →
        |(F64.div a b).toRat - a.toRat / b.toRat| ≤ (2 : ℚ) ^ 970) ∧
      (|a.toRat / b.toRat| < (2 : ℚ) ^ 1024 - (2 : ℚ) ^ 970 →
        (F64.div a b).isFinite = true) := by
  cases a with
  | nan => simp [F64.isFinite] at ha
  | inf s => simp [F64.isFinite] at ha
  | fin s1 m1 e1 =>
    cases b with
    | nan => simp [F64.isFinite] at hb
    | inf s => simp [F64.isFinite] at hb
    | fin s2 m2 e2 =>
      simp only [toRat_fin] at hb0 ⊢
      have hm2 : m2 ≠ 0 := by
        rintro rfl
        simp at hb0
      have hm2q : (m2 : ℚ) ≠ 0 := by exact_mod_cast hm2
      have hs2 : sgn s2 ≠ 0 := by cases s2 <;> simp [sgn]
      have hP2 : (2 : ℚ) ^ e2 ≠ 0 := by positivity
      simp only [F64.div, hm2, if_false]
      have hquot : ∀ q : ℚ, q = (m1 : ℚ) * (2 : ℚ) ^ e1 / ((m2 : ℚ) * (2 : ℚ) ^ e2) →
          sgn s1 * ((m1 : ℚ) * (2 : ℚ) ^ e1) / (sgn s2 * ((m2 : ℚ) * (2 : ℚ) ^ e2)) =
            sgn (xor s1 s2) * q := by
        intro q hq
        rw [hq, sgn_xor]
        cases s1 <;> cases s2 <;> simp [sgn] <;> field_simp
      by_cases he : e2 ≤ e1
      · simp only [he, if_true]
        have hq : ((m1 * 2 ^ (e1 - e2).toNat : Nat) : ℚ) / (m2 : ℚ) =
            (m1 : ℚ) * (2 : ℚ) ^ e1 / ((m2 : ℚ) * (2 : ℚ) ^ e2) := by
          rw [← pow_toNat_mul e1 e2 he]
          push_cast
          field_simp
          ring
        rw [hquot _ hq, abs_sgn_mul]
        have hnn : (0 : ℚ) ≤ ((m1 * 2 ^ (e1 - e2).toNat : Nat) : ℚ) / (m2 : ℚ) := by positivity
        rw [abs_of_nonneg hnn]
        exact round_top (xor s1 s2) _ m2 (Nat.pos_of_ne_zero hm2)
      · simp only [he, if_false]
        have he' : e1 ≤ e2 := by omega
        have hq : (m1 : ℚ) / ((m2 * 2 ^ (e2 - e1).toNat : Nat) : ℚ) =
            (m1 : ℚ) * (2 : ℚ) ^ e1 / ((m2 : ℚ) * (2 : ℚ) ^ e2) := by
          rw [← pow_toNat_mul e2 e1 he']
          push_cast
          field_simp
          ring
        rw [hquot _ hq, abs_sgn_mul]
        have hnn : (0 : ℚ) ≤ (m1 : ℚ) / ((m2 * 2 ^ (e2 - e1).toNat : Nat) : ℚ) := by positivity
        rw [abs_of_nonneg hnn]
        exact round_top (xor s1 s2) m1 _ (by positivity)

/-- The value of `t*1.8 + 32` on the scale `2^j`, on either build: for
`|t| ≤ 1000 * 2^j` it is finite and within `2 * 2^j / 2^43` of the exact
value. -/
theorem mulAdd_scale (fused : Bool) (t : F64) (j : Nat) (hj : j ≤ 1012)
    (ht : t.isFinite = true) (hb : |t.toRat| ≤ 1000 * (2 : ℚ) ^ j) :
    (F64.mulAdd fused t const1_8 const32).isFinite = true ∧
      |(F64.mulAdd fused t const1_8 const32).toRat -
          (t.toRat * (8106479329266893 / 4503599627370496) + 32)| ≤
        2 * ((2 : ℚ) ^ j / 8796093022208) := by
  have hc : const1_8.isFinite = true := by rw [const1_8_eq]; rfl
  have h32 : const32.isFinite = true := by rw [const32_eq]; rfl
  have hs : (1 : ℚ) ≤ (2 : ℚ) ^ j := one_le_pow₀ (by norm_num)
  have e43 : (2 : ℚ) ^ ((11 : Int) + (j : Int) - 54) = (2 : ℚ) ^ j / 8796093022208 := by
    have : (11 : Int) + (j : Int) - 54 = (-43 : Int) + (j : Int) := by ring
    rw [this, zpow_scale]; norm_num; ring
  have p11 : (2 : ℚ) ^ ((11 : Int) + (j : Int)) = 2048 * (2 : ℚ) ^ j := by
    rw [zpow_scale]; norm_num
  have hk1 : (-1021 : Int) ≤ 11 + (j : Int) := by omega
  have hk2 : (11 : Int) + (j : Int) ≤ 1023 := by omega
  generalize (2 : ℚ) ^ j = s at hs hb e43 p11 ⊢
  obtain ⟨hx1, hx2⟩ := abs_le.mp hb
  cases fused with
  | false =>
    simp only [F64.mulAdd, Bool.false_eq_true, if_false]
    have hp := mul_close t const1_8 (11 + j) ht hc hk1 hk2
      (by rw [const1_8_toRat, p11, abs_lt]; constructor <;> linarith)
    rw [const1_8_toRat, e43] at hp
    obtain ⟨hpf, hpe⟩ := hp
    obtain ⟨hp1, hp2⟩ := abs_le.mp hpe
    have hq := add_close (F64.mul t const1_8) const32 (11 + j) hpf h32 hk1 hk2
      (by rw [const32_toRat, p11, abs_lt]; constructor <;> linarith)
    rw [const32_toRat, e43] at hq
    obtain ⟨hqf, hqe⟩ := hq
    obtain ⟨hq1, hq2⟩ := abs_le.mp hqe
    refine ⟨hqf, ?_⟩
    rw [abs_le]
    constructor <;> linarith
  | true =>
    simp only [F64.mulAdd, if_true]
    have hq := rounds_close _ _ (11 + j) (fma_rounds t const1_8 const32 ht hc h32) hk1 hk2
      (by rw [const1_8_toRat, const32_toRat, p11, abs_lt]; constructor <;> linarith)
    rw [const1_8_toRat, const32_toRat, e43] at hq
    obtain ⟨hqf, hqe⟩ := hq
    obtain ⟨hq1, hq2⟩ := abs_le.mp hqe
    refine ⟨hqf, ?_⟩
    rw [abs_le]
    constructor <;> linarith

/-- The value of `t*1.8 + 32` on either build, when it is finite, is within
`2 * 2^970` of the exact value. -/
theorem mulAdd_top (fused : Bool) (t : F64) (ht : t.isFinite = true)
    (hF : (F64.mulAdd fused t const1_8 const32).isFinite = true) :
    |(F64.mulAdd fused t const1_8 const32).toRat -
        (t.toRat * (8106479329266893 / 4503599627370496) + 32)| ≤ 2 * (2 : ℚ) ^ 970 := by
  have hc : const1_8.isFinite = true := by rw [const1_8_eq]; rfl
  have h32 : const32.isFinite = true := by rw [const32_eq]; rfl
  have hpos : (0 : ℚ) < (2 : ℚ) ^ 970 := by positivity
  cases fused with
  | false =>
    simp only [F64.mulAdd, Bool.false_eq_true, if_false] at hF ⊢
    have hpf := (isFinite_of_add _ _ hF).1
    have hp := (rounds_top _ _ (mul_rounds t const1_8 ht hc)).1 hpf
    have hq := (rounds_top _ _ (add_rounds (F64.mul t const1_8) const32 hpf h32)).1 hF
    rw [const1_8_toRat] at hp
    rw [const32_toRat] at hq
    obtain ⟨hp1, hp2⟩ := abs_le.mp hp
    obtain ⟨hq1, hq2⟩ := abs_le.mp hq
    rw [abs_le]
    constructor <;> linarith
  | true =>
    simp only [F64.mulAdd, if_true] at hF ⊢
    have hq := (rounds_top _ _ (fma_rounds t const1_8 const32 ht hc h32)).1 hF
    rw [const1_8_toRat, const32_toRat] at hq
    obtain ⟨hq1, hq2⟩ := abs_le.mp hq
    rw [abs_le]
    constructor <;> linarith

/-- Celsius to Fahrenheit and back, on the scale `2^j` and on either build: for
`|t| ≤ 1000 * 2^j` the result is finite and within `2^j / 10^12` of `t`. -/
theorem fahrenheit_round_trip_scale (fused : Bool) (t : F64) (j : Nat) (hj : j ≤ 1012)
    (ht : t.isFinite = true) (hb : |t.toRat| ≤ 1000 * (2 : ℚ) ^ j) :
    (F64.div (F64.sub (F64.mulAdd fused t const1_8 const32) const32) const1_8).isFinite
        = true ∧
      |(F64.div (F64.sub (F64.mulAdd fused t const1_8 const32) const32) const1_8).toRat
          - t.toRat| ≤ (2 : ℚ) ^ j / 10 ^ 12 := by
  have hc : const1_8.isFinite = true := by rw [const1_8_eq]; rfl
  have h32 : const32.isFinite = true := by rw [const32_eq]; rfl
  have hs : (1 : ℚ) ≤ (2 : ℚ) ^ j := one_le_pow₀ (by norm_num)
  obtain ⟨hqf, hqe⟩ := mulAdd_scale fused t j hj ht hb
  have e43 : (2 : ℚ) ^ ((11 : Int) + (j : Int) - 54) = (2 : ℚ) ^ j / 8796093022208 := by
    have : (11 : Int) + (j : Int) - 54 = (-43 : Int) + (j : Int) := by ring
    rw [this, zpow_scale]; norm_num; ring
  have e44 : (2 : ℚ) ^ ((10 : Int) + (j : Int) - 54) = (2 : ℚ) ^ j / 17592186044416 := by
    have : (10 : Int) + (j : Int) - 54 = (-44 : Int) + (j : Int) := by ring
    rw [this, zpow_scale]; norm_num; ring
  have p11 : (2 : ℚ) ^ ((11 : Int) + (j : Int)) = 2048 * (2 : ℚ) ^ j := by
    rw [zpow_scale]; norm_num
  have p10 : (2 : ℚ) ^ ((10 : Int) + (j : Int)) = 1024 * (2 : ℚ) ^ j := by
    rw [zpow_scale]; norm_num
  have hk1 : (-1021 : Int) ≤ 11 + (j : Int) := by omega
  have hk2 : (11 : Int) + (j : Int) ≤ 1023 := by omega
  have hk3 : (-1021 : Int) ≤ 10 + (j : Int) := by omega
  have hk4 : (10 : Int) + (j : Int) ≤ 1023 := by omega
  generalize (2 : ℚ) ^ j = s at hs hb hqe e43 e44 p11 p10 ⊢
  obtain ⟨hx1, hx2⟩ := abs_le.mp hb
  obtain ⟨hq1, hq2⟩ := abs_le.mp hqe
  -- minus 32
  have hr := sub_close (F64.mulAdd fused t const1_8 const32) const32 (11 + j) hqf h32
    hk1 hk2 (by rw [const32_toRat, p11, abs_lt]; constructor <;> linarith)
  rw [const32_toRat, e43] at hr
  obtain ⟨hrf, hre⟩ := hr
  obtain ⟨hr1, hr2⟩ := abs_le.mp hre
  -- divided by 1.8
  have hu := div_close (F64.sub (F64.mulAdd fused t const1_8 const32) const32) const1_8
    (10 + j) hrf hc (by rw [const1_8_toRat]; norm_num) hk3 hk4
    (by rw [const1_8_toRat, p10, abs_lt, div_eq_mul_inv]; constructor <;> linarith)
  rw [const1_8_toRat, e44, div_eq_mul_inv] at hu
  obtain ⟨huf, hue⟩ := hu
  obtain ⟨hu1, hu2⟩ := abs_le.mp hue
  refine ⟨huf, ?_⟩
  rw [abs_le]
  constructor <;> norm_num at * <;> linarith

/-- Celsius to Kelvin and back, on the scale `2^j`: for `|t| ≤ 1000 * 2^j` the
two values are finite and the result is within `2^j / 10^12` of `t`. -/
theorem kelvin_round_trip_scale (t : F64) (j : Nat) (hj : j ≤ 1012)
    (ht : t.isFinite = true) (hb : |t.toRat| ≤ 1000 * (2 : ℚ) ^ j) :
    (F64.add t const273_15).isFinite = true ∧
      (F64.sub (F64.add t const273_15) const273_15).isFinite = true ∧
      |(F64.sub (F64.add t const273_15) const273_15).toRat - t.toRat| ≤
        (2 : ℚ) ^ j / 10 ^ 12 := by
  have hc : const273_15.isFinite = true := by rw [const273_15_eq]; rfl
  have hs : (1 : ℚ) ≤ (2 : ℚ) ^ j := one_le_pow₀ (by norm_num)
  have e43 : (2 : ℚ) ^ ((11 : Int) + (j : Int) - 54) = (2 : ℚ) ^ j / 8796093022208 := by
    have : (11 : Int) + (j : Int) - 54 = (-43 : Int) + (j : Int) := by ring
    rw [this, zpow_scale]; norm_num; ring
  have p11 : (2 : ℚ) ^ ((11 : Int) + (j : Int)) = 2048 * (2 : ℚ) ^ j := by
    rw [zpow_scale]; norm_num
  have hk1 : (-1021 : Int) ≤ 11 + (j : Int) := by omega
  have hk2 : (11 : Int) + (j : Int) ≤ 1023 := by omega
  generalize (2 : ℚ) ^ j = s at hs hb e43 p11 ⊢
  obtain ⟨hx1, hx2⟩ := abs_le.mp hb
  have hs' := add_close t const273_15 (11 + j) ht hc hk1 hk2
    (by rw [const273_15_toRat, p11, abs_lt]; constructor <;> linarith)
  rw [const273_15_toRat, e43] at hs'
  obtain ⟨hsf, hse⟩ := hs'
  obtain ⟨hs1, hs2⟩ := abs_le.mp hse
  have hu := sub_close (F64.add t const273_15) const273_15 (11 + j) hsf hc hk1 hk2
    (by rw [const273_15_toRat, p11, abs_lt]; constructor <;> linarith)
  rw [const273_15_toRat, e43] at hu
  obtain ⟨huf, hue⟩ := hu
  obtain ⟨hu1, hu2⟩ := abs_le.mp hue
  refine ⟨hsf, huf, ?_⟩
  rw [abs_le]
  constructor <;> linarith

/-- A scale for a magnitude up to `1000 * 2^1011`: some `j ≤ 1012` with
`x ≤ 1000 * 2^j` and `2^j / 10^12 ≤ 1 / 10^12 + 2 * x / 10^15`. -/
theorem exists_scale (x : ℚ) (h0 : 0 ≤ x) (h1 : x ≤ 1000 * (2 : ℚ) ^ 1011) :
    ∃ j : Nat, j ≤ 1012 ∧ x ≤ 1000 * (2 : ℚ) ^ j ∧
      (2 : ℚ) ^ j / 10 ^ 12 ≤ 1 / 10 ^ 12 + 2 * x / 10 ^ 15 := by
  by_cases hsmall : x ≤ 1000
  · refine ⟨0, by norm_num, by simpa using hsmall, ?_⟩
    have : 0 ≤ 2 * x / 10 ^ 15 := by positivity
    simp only [pow_zero]
    linarith
  · have hy : (1 : ℚ) ≤ x / 1000 := by
      rw [le_div_iff₀ (by norm_num)]; linarith
    obtain ⟨n, hn1, hn2⟩ := exists_nat_pow_near hy (by norm_num : (1 : ℚ) < 2)
    have hnlt : n < 1012 := by
      by_contra hge
      have hge' : 1012 ≤ n := not_lt.mp hge
      have hpow : (2 : ℚ) ^ 1012 ≤ (2 : ℚ) ^ n := pow_le_pow_right₀ (by norm_num) hge'
      have hbig : x / 1000 ≤ (2 : ℚ) ^ 1011 := by
        rw [div_le_iff₀ (by norm_num)]
        linarith
      have : (2 : ℚ) ^ 1012 ≤ (2 : ℚ) ^ 1011 := le_trans hpow (le_trans hn1 hbig)
      norm_num at this
    refine ⟨n + 1, by omega, ?_, ?_⟩
    · have := (div_lt_iff₀ (by norm_num : (0 : ℚ) < 1000)).mp hn2
      linarith
    · have h2 : (2 : ℚ) ^ (n + 1) = 2 * (2 : ℚ) ^ n := by rw [pow_succ]; ring
      have h3 : (2 : ℚ) ^ n * 1000 ≤ x := (le_div_iff₀ (by norm_num)).mp hn1
      rw [h2, div_add_div _ _ (by norm_num) (by norm_num), div_le_div_iff₀ (by norm_num) (by norm_num)]
      nlinarith

/-- Celsius to Fahrenheit and back at the top of the range, on either build:
for `|t| > 1000 * 2^1011`, when `t*1.8 + 32` is finite, so is the result, and
it is within `2 * |t| / 10^15` of `t`. -/
theorem fahrenheit_round_trip_top (fused : Bool) (t : F64) (ht : t.isFinite = true)
    (hF : (F64.mulAdd fused t const1_8 const32).isFinite = true)
    (hbig : 1000 * (2 : ℚ) ^ 1011 < |t.toRat|) :
    (F64.div (F64.sub (F64.mulAdd fused t const1_8 const32) const32) const1_8).isFinite
        = true ∧
      |(F64.div (F64.sub (F64.mulAdd fused t const1_8 const32) const32) const1_8).toRat
          - t.toRat| ≤ 2 * |t.toRat| / 10 ^ 15 := by
  have hc : const1_8.isFinite = true := by rw [const1_8_eq]; rfl
  have h32 : const32.isFinite = true := by rw [const32_eq]; rfl
  have p1024 : (2 : ℚ) ^ 1024 = 18014398509481984 * (2 : ℚ) ^ 970 := by norm_num
  have p971 : (2 : ℚ) ^ 971 = 2 * (2 : ℚ) ^ 970 := by norm_num
  have p1011 : (2 : ℚ) ^ 1011 = 2199023255552 * (2 : ℚ) ^ 970 := by norm_num
  have hG : (1000 : ℚ) ≤ (2 : ℚ) ^ 970 := by norm_num
  have hq := mulAdd_top fused t ht hF
  have hqwf := wf_bound _ (mulAdd_wf fused t const1_8 const32)
  have hsr := rounds_top _ _ (sub_rounds (F64.mulAdd fused t const1_8 const32) const32 hF h32)
  have hrwf := wf_bound _ (add_wf (F64.mulAdd fused t const1_8 const32) (F64.neg const32))
  have hd := div_top (F64.sub (F64.mulAdd fused t const1_8 const32) const32) const1_8
  rw [const32_toRat] at hsr
  rw [const1_8_toRat, div_eq_mul_inv] at hd
  rw [p1024, p971] at hqwf hrwf
  rw [p1024] at hsr hd
  rw [p1011] at hbig
  change |(F64.sub (F64.mulAdd fused t const1_8 const32) const32).toRat| ≤ _ at hrwf
  generalize (2 : ℚ) ^ 970 = G at *
  obtain ⟨hq1, hq2⟩ := abs_le.mp hq
  obtain ⟨hw1, hw2⟩ := abs_le.mp hqwf
  have hrf := hsr.2 (by rw [abs_lt]; constructor <;> linarith)
  obtain ⟨hr1, hr2⟩ := abs_le.mp (hsr.1 hrf)
  obtain ⟨hv1, hv2⟩ := abs_le.mp hrwf
  have hd' := hd hrf hc (by norm_num)
  have huf := hd'.2 (by rw [abs_lt]; constructor <;> norm_num <;> linarith)
  obtain ⟨hu1, hu2⟩ := abs_le.mp (hd'.1 huf)
  refine ⟨huf, ?_⟩
  have hclose : |(F64.div (F64.sub (F64.mulAdd fused t const1_8 const32) const32)
      const1_8).toRat - t.toRat| ≤ 3 * G := by
    rw [abs_le]
    constructor <;> norm_num at * <;> linarith
  refine le_trans hclose ?_
  rw [le_div_iff₀ (by norm_num)]
  linarith

/-- Celsius to Kelvin and back at the top of the range: for every `float64`
value `t` with `|t| > 1000 * 2^1011` the two values are finite and the result
is within `2 * |t| / 10^15` of `t`. -/
theorem kelvin_round_trip_top (t : F64) (hwf : t.wf) (ht : t.isFinite = true)
    (hbig : 1000 * (2 : ℚ) ^ 1011 < |t.toRat|) :
    (F64.add t const273_15).isFinite = true ∧
      (F64.sub (F64.add t const273_15) const273_15).isFinite = true ∧
      |(F64.sub (F64.add t const273_15) const273_15).toRat - t.toRat| ≤
        2 * |t.toRat| / 10 ^ 15 := by
  have hc : const273_15.isFinite = true := by rw [const273_15_eq]; rfl
  have p1024 : (2 : ℚ) ^ 1024 = 18014398509481984 * (2 : ℚ) ^ 970 := by norm_num
  have p971 : (2 : ℚ) ^ 971 = 2 * (2 : ℚ) ^ 970 := by norm_num
  have p1011 : (2 : ℚ) ^ 1011 = 2199023255552 * (2 : ℚ) ^ 970 := by norm_num
  have hG : (1000 : ℚ) ≤ (2 : ℚ) ^ 970 := by norm_num
  have htb := wf_bound t hwf
  have hsa := rounds_top _ _ (add_rounds t const273_15 ht hc)
  have hswf := wf_bound _ (add_wf t const273_15)
  rw [const273_15_toRat] at hsa
  rw [p1024, p971] at htb hswf
  rw [p1024] at hsa
  rw [p1011] at hbig
  have hsub : ∀ hsf : (F64.add t const273_15).isFinite = true,
      ((F64.sub (F64.add t const273_15) const273_15).isFinite = true →
        |(F64.sub (F64.add t const273_15) const273_15).toRat -
          ((F64.add t const273_15).toRat - 4805305618032230 / 17592186044416)| ≤
            (2 : ℚ) ^ 970) ∧
      (|(F64.add t const273_15).toRat - 4805305618032230 / 17592186044416| <
          18014398509481984 * (2 : ℚ) ^ 970 - (2 : ℚ) ^ 970 →
        (F64.sub (F64.add t const273_15) const273_15).isFinite = true) := by
    intro hsf
    have h := rounds_top _ _ (sub_rounds (F64.add t const273_15) const273_15 hsf hc)
    rw [const273_15_toRat, p1024] at h
    exact h
  generalize (2 : ℚ) ^ 970 = G at *
  obtain ⟨ht1, ht2⟩ := abs_le.mp htb
  obtain ⟨hw1, hw2⟩ := abs_le.mp hswf
  have hsf := hsa.2 (by rw [abs_lt]; constructor <;> linarith)
  obtain ⟨hs1, hs2⟩ := abs_le.mp (hsa.1 hsf)
  have huf := (hsub hsf).2 (by rw [abs_lt]; constructor <;> linarith)
  obtain ⟨hu1, hu2⟩ := abs_le.mp ((hsub hsf).1 huf)
  refine ⟨hsf, huf, ?_⟩
  have hclose : |(F64.sub (F64.add t const273_15) const273_15).toRat - t.toRat| ≤
      2 * G := by
    rw [abs_le]
    constructor <;> linarith
  refine le_trans hclose ?_
  rw [le_div_iff₀ (by norm_num)]
  linarith

/-- C7, as `float64` arithmetic has it, on either build: for every finite
`float64` Celsius value `t`, with `tempF = t*1.8 + 32` and
`tempK = t + 273.15` as the handler computes them, `tempK` and
`tempK - 273.15` are finite and `tempK - 273.15` differs from `t` by at most
`10^-12 + 2*|t|/10^15`; and whenever `tempF` is finite, which it is for
`|t| ≤ 10^307`, `(tempF - 32)/1.8` is finite and differs from `t` by at most
`10^-12 + 2*|t|/10^15`. -/
theorem conversions_round_trip (fused : Bool) (t : F64) (hwf : t.wf)
    (ht : t.isFinite = true) :
    ((F64.mulAdd fused t const1_8 const32).isFinite = true →
      (F64.div (F64.sub (F64.mulAdd fused t const1_8 const32) const32) const1_8).isFinite
          = true ∧
        |(F64.div (F64.sub (F64.mulAdd fused t const1_8 const32) const32) const1_8).toRat
            - t.toRat| ≤ 1 / 10 ^ 12 + 2 * |t.toRat| / 10 ^ 15) ∧
    (|t.toRat| ≤ 10 ^ 307 → (F64.mulAdd fused t const1_8 const32).isFinite = true) ∧
    ((F64.add t const273_15).isFinite = true ∧
      (F64.sub (F64.add t const273_15) const273_15).isFinite = true ∧
      |(F64.sub (F64.add t const273_15) const273_15).toRat - t.toRat| ≤
        1 / 10 ^ 12 + 2 * |t.toRat| / 10 ^ 15) := by
  have hsmall : (10 : ℚ) ^ 307 ≤ 1000 * (2 : ℚ) ^ 1011 := by norm_num
  have hpos : (0 : ℚ) ≤ 1 / 10 ^ 12 := by norm_num
  by_cases hmid : |t.toRat| ≤ 1000 * (2 : ℚ) ^ 1011
  · obtain ⟨j, hj, hscale, hbound⟩ := exists_scale |t.toRat| (abs_nonneg _) hmid
    obtain ⟨hF1, hF2⟩ := fahrenheit_round_trip_scale fused t j hj ht hscale
    obtain ⟨hK0, hK1, hK2⟩ := kelvin_round_trip_scale t j hj ht hscale
    exact ⟨fun _ => ⟨hF1, hF2.trans hbound⟩, fun _ => (mulAdd_scale fused t j hj ht hscale).1,
      hK0, hK1, hK2.trans hbound⟩
  · have hbig : 1000 * (2 : ℚ) ^ 1011 < |t.toRat| := not_le.mp hmid
    obtain ⟨hK0, hK1, hK2⟩ := kelvin_round_trip_top t hwf ht hbig
    refine ⟨fun hF => ?_, fun h307 => absurd (le_trans h307 hsmall) hmid, hK0, hK1, ?_⟩
    · obtain ⟨hF1, hF2⟩ := fahrenheit_round_trip_top fused t ht hF hbig
      exact ⟨hF1, by linarith⟩
    · linarith

theorem conversions_round_trip_witness :
    |(F64.div (F64.sub (F64.mulAdd false (F64.ofRatio 255 10) const1_8 const32) const32)
          const1_8).toRat - (F64.ofRatio 255 10).toRat| ≤
      1 / 10 ^ 12 + 2 * |(F64.ofRatio 255 10).toRat| / 10 ^ 15 :=
  ((conversions_round_trip false (F64.ofRatio 255 10) (round_wf false 255 10 (by decide))
    (by decide)).1 (by decide)).2

/-- C7 as stated fails: from `t = 25.5` the Fahrenheit round trip
`(tempF - 32)/1.8` returns the next `float64` above `25.5`
(`25.500000000000004`), on either build, and from `t = 0.1` the Kelvin round
trip `tempK - 273.15` returns `0.10000000000002274`. -/
theorem conversions_round_trip_inexact :
    (F64.ofRatio 255 10 = .fin false 7177611906121728 (-48) ∧
      F64.div (F64.sub (F64.mulAdd false (F64.ofRatio 255 10) const1_8 const32) const32)
        const1_8 = .fin false 7177611906121729 (-48) ∧
      F64.div (F64.sub (F64.mulAdd true (F64.ofRatio 255 10) const1_8 const32) const32)
        const1_8 = .fin false 7177611906121729 (-48)) ∧
    (F64.ofRatio 1 10 = .fin false 7205759403792794 (-56) ∧
      F64.sub (F64.add (F64.ofRatio 1 10) const273_15) const273_15 =
        .fin false 7205759403794432 (-56)) := by
  decide

end CepWeather
